import Mathlib

/-!
Verification of the FileRenamerPro core against its specification.

Shallow embedding conventions:
* Python strings are modelled as `List Char` (`Str`); only ASCII behaviour of
  `str.upper` / `str.lower` / `\s` is modelled, which covers every character
  class the code manipulates.
* The filesystem is modelled as the list of existing file paths (`FS`), and
  OS-level failure of `shutil.move` is modelled by an environment oracle
  (`OsEnv`) that decides, per (source, destination) pair, whether the move
  succeeds or raises `PermissionError`, `FileNotFoundError`, or some other
  exception carrying a message.  Directory creation (`ensure_directory`) has
  no observable effect in this model and timestamps are environment-supplied
  opaque strings.
-/

abbrev Str := List Char

namespace PyStr

/-- ASCII model of the character classes used by the Python code. -/
def isPyWs (c : Char) : Bool :=
  c = ' ' || c = '\t' || c = '\n' || c = '\x0d' || c = '\x0b' || c = '\x0c'

def isPyDigit (c : Char) : Bool :=
  '0' ≤ c && c ≤ '9'

/-- `str.strip()` seen from the right: drop trailing characters satisfying `p`. -/
def rdropWhileP (p : Char → Bool) (l : Str) : Str :=
  (l.reverse.dropWhile p).reverse

/-- Python `s.strip(chars)` for the character class `p`. -/
def stripP (p : Char → Bool) (l : Str) : Str :=
  rdropWhileP p (l.dropWhile p)

/-- Python `s.strip()` (whitespace strip). -/
def pyStrip (l : Str) : Str := stripP isPyWs l

/-- Python `s.split(sep)` for a one-character separator: always returns at
least one piece, empty pieces included (so `"".split("_") == [""]`). -/
def splitChar (sep : Char) : Str → List Str
  | [] => [[]]
  | c :: rest =>
    if c = sep then [] :: splitChar sep rest
    else
      match splitChar sep rest with
      | [] => [[c]]
      | h :: t => (c :: h) :: t

/-- Python `sep.join(pieces)`. -/
def joinSep (sep : Str) : List Str → Str
  | [] => []
  | [x] => x
  | x :: xs => x ++ sep ++ joinSep sep xs

/-- Python `s.rsplit(sep, 1)` when the separator occurs: the pieces before and
after the LAST occurrence of `sep`; `none` when `sep` does not occur. -/
def rsplitLast (sep : Char) (s : Str) : Option (Str × Str) :=
  let r := s.reverse
  let pre := r.takeWhile (fun c => c ≠ sep)
  if pre.length = r.length then none
  else some ((r.drop (pre.length + 1)).reverse, pre.reverse)

/-- `s.rsplit(sep, 1)[0]`: the part before the last `sep`, or all of `s`. -/
def rsplitHead (sep : Char) (s : Str) : Str :=
  match rsplitLast sep s with
  | some (st, _) => st
  | none => s

/-- Decimal rendering of a natural number, Python `str(n)`. -/
def natToStr (n : Nat) : Str := Nat.toDigits 10 n

/-- Tail of a Python `int` literal after its first digit: digits with single
interior underscores. Accumulates the value. -/
def pyDigitsTail (acc : Nat) : Str → Option Nat
  | [] => some acc
  | c :: rest =>
    if isPyDigit c then pyDigitsTail (acc * 10 + (c.toNat - 48)) rest
    else if c = '_' then
      match rest with
      | [] => none
      | d :: rest2 =>
        if isPyDigit d then pyDigitsTail (acc * 10 + (d.toNat - 48)) rest2
        else none
    else none

def parsePyIntBody : Str → Option Nat
  | [] => none
  | c :: rest => if isPyDigit c then pyDigitsTail (c.toNat - 48) rest else none

/-- ASCII model of Python `int(s)`: optional surrounding whitespace, optional
sign, decimal digits with single interior underscores; `none` models
`ValueError`. -/
def parsePyInt (s : Str) : Option Int :=
  let t := pyStrip s
  match t with
  | '+' :: rest => (parsePyIntBody rest).map Int.ofNat
  | '-' :: rest => (parsePyIntBody rest).map (fun n => -(n : Int))
  | _ => (parsePyIntBody t).map Int.ofNat

/-- Python slice `l[:k]` where `k` may be negative (counts from the end). -/
def pySliceTo (l : Str) (k : Int) : Str :=
  if 0 ≤ k then l.take k.toNat else l.take ((l.length : Int) + k).toNat

/-- `os.path.basename` (posix): everything after the last slash. -/
def basename (p : Str) : Str :=
  (splitChar '/' p).getLastD []

/-- `os.path.splitext` (posix): splits off the extension of the basename; a
dot-only stem (e.g. `.bashrc`) yields no extension. -/
def splitext (p : Str) : Str × Str :=
  let b := basename p
  let dir := p.take (p.length - b.length)
  match rsplitLast '.' b with
  | none => (p, [])
  | some (st, ext) =>
    if st.any (fun c => c ≠ '.') then (dir ++ st, '.' :: ext) else (p, [])

/-- `os.path.join` for two components (posix). -/
def osPathJoin (a b : Str) : Str :=
  if b.head? = some '/' then b
  else if a = [] then b
  else if a.getLast? = some '/' then a ++ b
  else a ++ '/' :: b

end PyStr

open PyStr

namespace FileRenamer

/-! ## src/utils.py -/

/-- The character class of `INVALID_FILENAME_CHARS`:
forbidden printable characters plus the control range `\x00`-`\x1f`. -/
def isInvalidChar (c : Char) : Bool :=
  c = '<' || c = '>' || c = ':' || c = Char.ofNat 34 || c = '/' ||
  c = Char.ofNat 92 || c = '|' || c = '?' || c = '*' || c.toNat ≤ 0x1f

/-- `WINDOWS_RESERVED`: reserved Windows device names (stored uppercased). -/
def WINDOWS_RESERVED : List Str :=
  ["CON".data, "PRN".data, "AUX".data, "NUL".data,
   "COM1".data, "COM2".data, "COM3".data, "COM4".data, "COM5".data,
   "COM6".data, "COM7".data, "COM8".data, "COM9".data,
   "LPT1".data, "LPT2".data, "LPT3".data, "LPT4".data, "LPT5".data,
   "LPT6".data, "LPT7".data, "LPT8".data, "LPT9".data]

/-- `INVALID_FILENAME_PATTERN.sub(replacement, filename)`: each forbidden
character is replaced by the replacement string. -/
def substituteInvalid (filename replacement : Str) : Str :=
  filename.flatMap (fun c => if isInvalidChar c then replacement else [c])

/-- The character class stripped by `sanitized.strip(' .')`. -/
def isSpaceDot (c : Char) : Bool := c = ' ' || c = '.'

/-- The character class stripped by `strip('_- ')` in the job folder code. -/
def isStripSep (c : Char) : Bool := c = '_' || c = '-' || c = ' '

/-- `sanitized.strip(' .')`. -/
def stripSpaceDot (s : Str) : Str :=
  stripP isSpaceDot s

/-- `sanitized.rsplit('.', 1)[0].upper()` (ASCII upper, as everywhere in this
model). -/
def upperStem (s : Str) : Str :=
  (rsplitHead '.' s).map Char.toUpper

/-- The length-clamping step of `sanitize_filename` (limit 200, preserving the
extension by shortening the stem via a Python slice that may be negative). -/
def clampLength (s : Str) : Str :=
  if s.length > 200 then
    match rsplitLast '.' s with
    | some (name, ext) => pySliceTo name (200 - (ext.length : Int) - 1) ++ '.' :: ext
    | none => s.take 200
  else s

/-- `sanitize_filename(filename, replacement)` from src/utils.py. -/
def sanitize_filename (filename : Str) (replacement : Str) : Str :=
  if filename = [] then []
  else
    let s1 := substituteInvalid filename replacement
    let s2 := stripSpaceDot s1
    let s3 := if upperStem s2 ∈ WINDOWS_RESERVED then '_' :: s2 else s2
    let s4 := if s3 = [] then "unnamed".data else s3
    clampLength s4

/-- `sanitize_filename` at its default replacement `"_"`. -/
def sanitizeDefault (filename : Str) : Str :=
  sanitize_filename filename ['_']

/-- `validate_filename(filename)` from src/utils.py. -/
def validate_filename (filename : Str) : Bool × Str :=
  if filename = [] then (false, "Filename is empty".data)
  else if filename.any isInvalidChar then
    (false, "Filename contains invalid characters".data)
  else if upperStem filename ∈ WINDOWS_RESERVED then
    (false, Char.ofNat 39 :: upperStem filename ++ Char.ofNat 39 ::
      " is a reserved name on Windows".data)
  else if filename.length > 255 then (false, "Filename is too long".data)
  else (true, [])

/-! ## src/job_parser.py -/

/-- `JobInfo` dataclass: all-string record, empty string meaning "absent". -/
structure JobInfo where
  job_number : Str
  customer : Str
  company : Str
  sku : Str
  quantity : Str
  po_number : Str
  raw : Str
deriving DecidableEq

def emptyJobInfo : JobInfo :=
  { job_number := [], customer := [], company := [], sku := [], quantity := [],
    po_number := [], raw := [] }

def JobInfo.is_valid (info : JobInfo) : Bool := info.job_number ≠ []

/-- Lookup of the seven dataclass fields by name (`none` when the key names
no field; `getattr` can still find non-field attributes, see
`getattrModel`). -/
def JobInfo.fieldLookup (info : JobInfo) (key : Str) : Option Str :=
  if key = "job_number".data then some info.job_number
  else if key = "customer".data then some info.customer
  else if key = "company".data then some info.company
  else if key = "sku".data then some info.sku
  else if key = "quantity".data then some info.quantity
  else if key = "po_number".data then some info.po_number
  else if key = "raw".data then some info.raw
  else none

/-- A Python attribute value as `getattr` sees it on a `JobInfo` instance:
either a string (the dataclass fields, the class docstring) or a bound
method object (not a string, and always truthy). -/
inductive PyValue where
  | str (s : Str) : PyValue
  | method (name : Str) : PyValue
deriving DecidableEq

/-- Keys of the form `__...__`: besides `__doc__` (a plain string, modelled
in `getattrModel`), CPython synthesizes many such object-protocol attributes
on every dataclass (`__init__`, `__repr__`, `__eq__`, `__module__`,
`__dataclass_fields__`, ...); those are interpreter machinery outside this
string-typed embedding, so theorems about absent keys exclude dunder keys. -/
def isDunderKey (key : Str) : Bool :=
  key.take 2 = ['_', '_'] && key.drop (key.length - 2) = ['_', '_']

/-- `getattr(self, key, <absent>)` on a `JobInfo` instance, covering every
attribute defined in the class source: the seven dataclass fields, the class
docstring `"""Structured job information"""`, and the two declared methods
`is_valid` and `get`.  Any other NON-dunder key names no attribute of the
instance, so `getattr` falls back to its default (`none` here); the
remaining dunder keys are CPython object machinery (see `isDunderKey`) not
modelled. -/
def JobInfo.getattrModel (info : JobInfo) (key : Str) : Option PyValue :=
  match info.fieldLookup key with
  | some v => some (PyValue.str v)
  | none =>
    if key = "__doc__".data then
      some (PyValue.str "Structured job information".data)
    else if key = "is_valid".data then some (PyValue.method "is_valid".data)
    else if key = "get".data then some (PyValue.method "get".data)
    else none

/-- `JobInfo.get(key, default)`: `getattr(self, key, default) or default`.
A missing attribute yields the default; a falsy (empty) string yields the
default; a non-empty string is returned as is; a bound method is truthy and
is passed through unchanged - on such keys the Python code itself violates
its declared `str` return type. -/
def JobInfo.get (info : JobInfo) (key default : Str) : PyValue :=
  match info.getattrModel key with
  | some (PyValue.str v) =>
    if v = [] then PyValue.str default else PyValue.str v
  | some (PyValue.method n) => PyValue.method n
  | none => PyValue.str default

namespace JobFolderParser

/-- `_clean_name`: `name.strip('_- ')`. -/
def clean_name (name : Str) : Str :=
  stripP isStripSep name

def isOpenBr (c : Char) : Bool := c = '(' || c = '['
def isCloseBr (c : Char) : Bool := c = ')' || c = ']'

/-- Completion of the PO regex `[\(\[]([^\)\]]+)[\)\]]$` after its opening
bracket: the rest of the string must be a non-empty bracket-content run
followed by a single closing bracket at the very end. -/
def tailPoMatch (rest : Str) : Option Str :=
  match rest.getLast? with
  | none => none
  | some c =>
    if isCloseBr c then
      let g := rest.dropLast
      if g ≠ [] && g.all (fun d => !isCloseBr d) then some g else none
    else none

/-- `re.search(r'[\(\[]([^\)\]]+)[\)\]]$', s)`: leftmost start position wins;
returns (text before the match, group 1). -/
def poSearchAux (acc : Str) : Str → Option (Str × Str)
  | [] => none
  | c :: rest =>
    if isOpenBr c then
      match tailPoMatch rest with
      | some g => some (acc.reverse, g)
      | none => poSearchAux (c :: acc) rest
    else poSearchAux (c :: acc) rest

def poSearch (s : Str) : Option (Str × Str) := poSearchAux [] s

/-- Completion of the SKU regex `(.+?)\s*[xX]\s*(\d+)` after group 1 and
after its leading `\s*` has been consumed: an `x`/`X`, optional whitespace,
then a non-empty (maximal) digit run, which is group 2. -/
def tailXMatchCore : Str → Option Str
  | [] => none
  | c :: rest =>
    if c = 'x' || c = 'X' then
      let ds := (rest.dropWhile isPyWs).takeWhile isPyDigit
      if ds = [] then none else some ds
    else none

/-- Completion of the SKU regex `(.+?)\s*[xX]\s*(\d+)` after group 1:
optional whitespace, an `x`/`X`, optional whitespace, then a non-empty
(maximal) digit run.  Backtracking is deterministic here because whitespace
characters are neither `x` nor digits. -/
def tailXMatch (s : Str) : Option Str :=
  tailXMatchCore (s.dropWhile isPyWs)

/-- `re.match(r'(.+?)\s*[xX]\s*(\d+)', s)`: the lazy group 1 grows one
character at a time (never across a newline, since `.` excludes it) until the
rest of the pattern matches.  Returns (group 1, group 2). -/
def skuMatchAux (acc : Str) : Str → Option (Str × Str)
  | [] => none
  | c :: rest =>
    if c = '\n' then none
    else
      match tailXMatch rest with
      | some ds => some ((c :: acc).reverse, ds)
      | none => skuMatchAux (c :: acc) rest

def skuMatch (s : Str) : Option (Str × Str) := skuMatchAux [] s

/-- `JobFolderParser.parse(folder_name)` from src/job_parser.py. -/
def parse (folder_name : Str) : JobInfo :=
  if folder_name = [] then emptyJobInfo
  else
    let raw := folder_name
    let fn0 := pyStrip folder_name
    let (fn, po) :=
      match poSearch fn0 with
      | some (before, g) => (stripP isStripSep before, pyStrip g)
      | none => (fn0, [])
    let parts := splitChar '_' fn
    let job_number :=
      match parts.head? with
      | some p0 => p0.takeWhile isPyDigit
      | none => []
    let customer := match parts[1]? with | some p => clean_name p | none => []
    let company := match parts[2]? with | some p => clean_name p | none => []
    let (sku, quantity) :=
      if parts.length ≥ 4 then
        let sku_qty := joinSep ['_'] (parts.drop 3)
        match skuMatch sku_qty with
        | some (g1, g2) => (pyStrip g1, g2)
        | none => (pyStrip sku_qty, [])
      else ([], [])
    { job_number := job_number, customer := customer, company := company,
      sku := sku, quantity := quantity, po_number := po, raw := raw }

end JobFolderParser

/-- The folder-name shape of claim C4:
`"<digits>_<A>_<B>_<SKU> x <N>_(PO)"`. -/
def fullJobFolder (D A B SKU N PO : Str) : Str :=
  D ++ '_' :: A ++ '_' :: B ++ '_' :: SKU ++ ' ' :: 'x' :: ' ' :: N ++
    '_' :: '(' :: PO ++ [')']

/-! ## src/revision.py

The directory scan (`_scan_for_revisions`) reads the filesystem; its output is
a list of revision tokens (digit strings or `"FINAL"`), and the claims range
over arbitrary scan results, so `find_next_revision` is modelled as a function
of the scan result.  An invalid folder or empty base pattern produces the same
result as an empty scan (both return `_get_first_revision`). -/

structure RevisionDetector where
  revision_list : List Str
deriving DecidableEq

/-- `RevisionDetector.__init__`: `self.revision_list = revision_list or
["1", "2", "3", "4", "5", "FINAL"]` — an empty configured vocabulary is
replaced by the default. -/
def defaultRevisionList : List Str :=
  ["1".data, "2".data, "3".data, "4".data, "5".data, "FINAL".data]

def RevisionDetector.make (revision_list : List Str) : RevisionDetector :=
  ⟨if revision_list = [] then defaultRevisionList else revision_list⟩

namespace RevisionDetector

/-- `_get_first_revision`. -/
def get_first_revision (d : RevisionDetector) : Str :=
  match d.revision_list with
  | [] => "1".data
  | h :: _ => h

/-- The `max_numeric` fold of `_calculate_next_revision`: greatest
`int`-parseable token, starting from 0, `"FINAL"` and unparseable tokens
skipped. -/
def maxNumericOf (found : List Str) : Int :=
  found.foldl
    (fun m rev =>
      if rev = "FINAL".data then m
      else
        match parsePyInt rev with
        | some n => if n > m then n else m
        | none => m)
    0

/-- `_calculate_next_revision(found_revisions)`. -/
def calculate_next_revision (d : RevisionDetector) (found : List Str) : Str :=
  let max_numeric := maxNumericOf found
  let has_final := "FINAL".data ∈ found
  if has_final then "FINAL".data
  else
    let next_rev := natToStr (max_numeric + 1).toNat
    if next_rev ∈ d.revision_list then next_rev
    else if "FINAL".data ∈ d.revision_list ∧ max_numeric ≥ 5 then "FINAL".data
    else next_rev

/-- `find_next_revision`, as a function of the scan result (see the module
comment). -/
def find_next_revision (d : RevisionDetector) (found_revisions : List Str) : Str :=
  if found_revisions = [] then d.get_first_revision
  else d.calculate_next_revision found_revisions

end RevisionDetector

/-- Modelled from the claim text of C3 (spec side of the refinement): the
next-revision cascade phrased over a vocabulary taken as given, with the
literal `"1"` fallback for an empty vocabulary in the empty-scan case. -/
def claimedNextRevision (vocab : List Str) (found : List Str) : Str :=
  if found = [] then
    match vocab with
    | [] => "1".data
    | h :: _ => h
  else if "FINAL".data ∈ found then "FINAL".data
  else
    let maxNumeric := RevisionDetector.maxNumericOf found
    let cand := natToStr (maxNumeric + 1).toNat
    if cand ∈ vocab then cand
    else if "FINAL".data ∈ vocab ∧ maxNumeric ≥ 5 then "FINAL".data
    else cand

/-! ## src/services.py

Filesystem model: `FS` is the list of existing file paths.  `OsEnv` is the
environment oracle deciding the outcome of each `shutil.move` /
`shutil.copy2` call (success, `PermissionError`, `FileNotFoundError`, or any
other exception with its `str(e)` message); `os.remove` and directory
creation are modelled as always succeeding, timestamps as opaque
environment-supplied strings. -/

abbrev FS := List Str

def fsExists (fs : FS) (p : Str) : Bool := p ∈ fs

/-- Effect of a successful `shutil.move src dst` on the set of files. -/
def fsMove (src dst : Str) (fs : FS) : FS :=
  let fs1 := fs.erase src
  if dst ∈ fs1 then fs1 else fs1 ++ [dst]

/-- Effect of a successful `shutil.copy2 src dst`. -/
def fsCopy (dst : Str) (fs : FS) : FS :=
  if dst ∈ fs then fs else fs ++ [dst]

inductive MoveOutcome where
  | ok : MoveOutcome
  | permissionError : MoveOutcome
  | fileNotFoundError : MoveOutcome
  | otherError (msg : Str) : MoveOutcome
deriving DecidableEq

structure OsEnv where
  moveOutcome : Str → Str → MoveOutcome
  copyOutcome : Str → Str → MoveOutcome

/-- `str(e)` of the exception raised for a failing outcome; the concrete OS
text of the built-in exceptions is environment detail, modelled by the
exception class name. -/
def excText : MoveOutcome → Str
  | .ok => []
  | .permissionError => "PermissionError".data
  | .fileNotFoundError => "FileNotFoundError".data
  | .otherError msg => msg

inductive FileOperation where
  | MOVE : FileOperation
  | COPY : FileOperation
  | RENAME : FileOperation
deriving DecidableEq

structure RenameRecord where
  original_path : Str
  new_path : Str
  operation : FileOperation
  timestamp : Str
  success : Bool
  error : Str
deriving DecidableEq

structure RenameSession where
  id : Str
  records : List RenameRecord
  timestamp : Str
  job_number : Str
deriving DecidableEq

/-- `RenameSession.success_count`: `sum(1 for r in records if r.success)`. -/
def RenameSession.success_count (s : RenameSession) : Nat :=
  s.records.countP (fun r => r.success)

/-- `RenameSession.error_count`. -/
def RenameSession.error_count (s : RenameSession) : Nat :=
  s.records.countP (fun r => !r.success)

structure UndoManager where
  max_history : Nat
  undo_stack : List RenameSession
  redo_stack : List RenameSession
deriving DecidableEq

/-- `UndoManager.__init__` (default `max_history=50`). -/
def UndoManager.init (max_history : Nat) : UndoManager :=
  { max_history := max_history, undo_stack := [], redo_stack := [] }

/-- The `while len(undo_stack) > max_history: undo_stack.pop(0)` trimming
loop of `record_session`, with structural fuel (each iteration shortens the
list, so `l.length` rounds always suffice). -/
def trimHistoryAux (max : Nat) : Nat → List RenameSession → List RenameSession
  | 0, l => l
  | fuel + 1, l => if l.length > max then trimHistoryAux max fuel l.tail else l

def trimHistory (max : Nat) (l : List RenameSession) : List RenameSession :=
  trimHistoryAux max l.length l

namespace UndoManager

/-- `record_session`: push, clear the redo stack, trim the undo stack. -/
def record_session (m : UndoManager) (s : RenameSession) : UndoManager :=
  { m with undo_stack := trimHistory m.max_history (m.undo_stack ++ [s]),
           redo_stack := [] }

def can_undo (m : UndoManager) : Bool := m.undo_stack.length > 0
def can_redo (m : UndoManager) : Bool := m.redo_stack.length > 0

/-- One step of the record loop inside `undo`, threading
(filesystem, restored count, error list). -/
def undoRecord (env : OsEnv) (acc : FS × Nat × List Str) (record : RenameRecord) :
    FS × Nat × List Str :=
  let (fs, restored, errors) := acc
  if !record.success then acc
  else if fsExists fs record.new_path then
    match record.operation with
    | .MOVE =>
      match env.moveOutcome record.new_path record.original_path with
      | .ok => (fsMove record.new_path record.original_path fs, restored + 1, errors)
      | e =>
        (fs, restored,
         errors ++ [basename record.new_path ++ ':' :: ' ' :: excText e])
    | .COPY => (fs.erase record.new_path, restored + 1, errors)
    | .RENAME => (fs, restored + 1, errors)
  else
    (fs, restored, errors ++ ["File not found: ".data ++ record.new_path])

/-- `undo()`: returns ((success, message, files_restored), manager, fs). -/
def undo (m : UndoManager) (env : OsEnv) (fs : FS) :
    (Bool × Str × Nat) × UndoManager × FS :=
  match m.undo_stack.getLast? with
  | none => ((false, "Nothing to undo".data, 0), m, fs)
  | some session =>
    let (fs2, restored, errors) :=
      session.records.reverse.foldl (undoRecord env) (fs, 0, [])
    let m2 : UndoManager :=
      { m with undo_stack := m.undo_stack.dropLast,
               redo_stack := m.redo_stack ++ [session] }
    if errors = [] then
      ((true, "Restored ".data ++ natToStr restored ++ " files".data, restored),
       m2, fs2)
    else
      ((false,
        "Restored ".data ++ natToStr restored ++ " files with ".data ++
          natToStr errors.length ++ " errors".data, restored),
       m2, fs2)

/-- One step of the record loop inside `redo`. -/
def redoRecord (env : OsEnv) (acc : FS × Nat × List Str) (record : RenameRecord) :
    FS × Nat × List Str :=
  let (fs, renamed, errors) := acc
  if !record.success then acc
  else if fsExists fs record.original_path then
    match record.operation with
    | .MOVE =>
      match env.moveOutcome record.original_path record.new_path with
      | .ok => (fsMove record.original_path record.new_path fs, renamed + 1, errors)
      | e => (fs, renamed, errors ++ [excText e])
    | .COPY =>
      match env.copyOutcome record.original_path record.new_path with
      | .ok => (fsCopy record.new_path fs, renamed + 1, errors)
      | e => (fs, renamed, errors ++ [excText e])
    | .RENAME => (fs, renamed + 1, errors)
  else
    (fs, renamed, errors ++ ["File not found: ".data ++ record.original_path])

/-- `redo()`: returns ((success, message, files_renamed), manager, fs). -/
def redo (m : UndoManager) (env : OsEnv) (fs : FS) :
    (Bool × Str × Nat) × UndoManager × FS :=
  match m.redo_stack.getLast? with
  | none => ((false, "Nothing to redo".data, 0), m, fs)
  | some session =>
    let (fs2, renamed, errors) :=
      session.records.foldl (redoRecord env) (fs, 0, [])
    let m2 : UndoManager :=
      { m with redo_stack := m.redo_stack.dropLast,
               undo_stack := m.undo_stack ++ [session] }
    if errors = [] then
      ((true, "Renamed ".data ++ natToStr renamed ++ " files".data, renamed),
       m2, fs2)
    else
      ((false,
        "Renamed ".data ++ natToStr renamed ++ " files with ".data ++
          natToStr errors.length ++ " errors".data, renamed),
       m2, fs2)

end UndoManager

/-- The manager states reachable by any sequence of `record_session`, `undo`
and `redo` calls from a fresh manager, under any filesystem and environment. -/
inductive ReachableU : UndoManager → Prop where
  | init (max : Nat) : ReachableU (UndoManager.init max)
  | record (m : UndoManager) (s : RenameSession) :
      ReachableU m → ReachableU (m.record_session s)
  | undo (m : UndoManager) (env : OsEnv) (fs : FS) :
      ReachableU m → ReachableU (m.undo env fs).2.1
  | redo (m : UndoManager) (env : OsEnv) (fs : FS) :
      ReachableU m → ReachableU (m.redo env fs).2.1

/-! ### RenameService -/

/-- `pathlib path.name` / `path.stem` / `path.suffix` and the probing loop of
`get_unique_path` (src/utils.py), written against the `FS` model; the
`ValueError` after 9999 attempts becomes the `Except.error` case. -/
def uniqueProbeMsg : Str :=
  "Could not find unique path after 9999 attempts".data

def pathSplitName (p : Str) : Str × Str :=
  let name := basename p
  (p.take (p.length - name.length), name)

def stemSuffix (name : Str) : Str × Str :=
  match rsplitLast '.' name with
  | none => (name, [])
  | some (st, ext) =>
    if st ≠ [] ∧ ext ≠ [] then (st, '.' :: ext) else (name, [])

/-- The probing loop `n = 1, 2, ...` of `get_unique_path`; the fuel counts
the remaining attempts before `n` would exceed 9999 and the loop raises. -/
def probeUnique (fs : FS) (dir stem suffix : Str) : Nat → Nat → Except Str Str
  | _, 0 => Except.error uniqueProbeMsg
  | n, fuel + 1 =>
    let candidate := dir ++ stem ++ '_' :: natToStr n ++ suffix
    if fsExists fs candidate then probeUnique fs dir stem suffix (n + 1) fuel
    else Except.ok candidate

/-- `get_unique_path(base_path)` from src/utils.py (attempts `n = 1..9999`,
then `ValueError`). -/
def get_unique_path (fs : FS) (base_path : Str) : Except Str Str :=
  if !fsExists fs base_path then Except.ok base_path
  else
    let (dir, name) := pathSplitName base_path
    let (stem, suffix) := stemSuffix name
    probeUnique fs dir stem suffix 1 9999

namespace RenameService

/-- The ordered list of non-empty sanitized parts built by
`generate_filename`. -/
def partsOf (job_number sku artwork_ref purpose revision : Str) : List Str :=
  (if job_number ≠ [] then [sanitizeDefault job_number] else []) ++
  (if sku ≠ [] then [sanitizeDefault sku] else []) ++
  (if artwork_ref ≠ [] then ['(' :: sanitizeDefault artwork_ref ++ [')']] else []) ++
  (if purpose ≠ [] then [sanitizeDefault purpose] else []) ++
  (if revision ≠ [] then [sanitizeDefault revision] else [])

/-- `RenameService.generate_filename` from src/services.py. -/
def generate_filename (original_path job_number sku artwork_ref purpose
    revision : Str) : Str :=
  let ext := (splitext original_path).2.map Char.toLower
  let parts := partsOf job_number sku artwork_ref purpose revision
  if parts = [] then basename original_path
  else joinSep ['_'] parts ++ ext

/-- One input row of `rename_files`: a dict with `path` and `new_name`. -/
structure FileInfo where
  path : Str
  new_name : Str
deriving DecidableEq

/-- The `shutil.move` call of `rename_files` together with its three
`except` arms; returns the finished record and the filesystem. -/
def doMove (env : OsEnv) (record : RenameRecord) (src dst : Str) (fs : FS) :
    RenameRecord × FS :=
  match env.moveOutcome src dst with
  | .ok => ({ record with success := true }, fsMove src dst fs)
  | .permissionError =>
    ({ record with success := false, error := "Permission denied".data }, fs)
  | .fileNotFoundError =>
    ({ record with success := false, error := "Source file not found".data }, fs)
  | .otherError msg => ({ record with success := false, error := msg }, fs)

/-- The body of the per-file loop of `rename_files` for one file. -/
def processFile (env : OsEnv) (dest_folder duplicate_mode now : Str) (fs : FS)
    (fi : FileInfo) : RenameRecord × FS :=
  let new_path := osPathJoin dest_folder fi.new_name
  let record : RenameRecord :=
    { original_path := fi.path, new_path := new_path, operation := .MOVE,
      timestamp := now, success := true, error := [] }
  if fsExists fs new_path then
    if duplicate_mode = "skip".data then
      ({ record with success := false, error := "File already exists".data }, fs)
    else if duplicate_mode = "increment".data then
      match get_unique_path fs new_path with
      | .error msg => ({ record with success := false, error := msg }, fs)
      | .ok p => doMove env { record with new_path := p } fi.path p fs
    else if duplicate_mode = "overwrite".data then
      doMove env record fi.path new_path (fs.erase new_path)
    else doMove env record fi.path new_path fs
  else doMove env record fi.path new_path fs

def processFiles (env : OsEnv) (dest_folder duplicate_mode now : Str) :
    List FileInfo → FS → List RenameRecord × FS
  | [], fs => ([], fs)
  | fi :: rest, fs =>
    let rfs := processFile env dest_folder duplicate_mode now fs fi
    let rsfs := processFiles env dest_folder duplicate_mode now rest rfs.2
    (rfs.1 :: rsfs.1, rsfs.2)

/-- `RenameService.rename_files` from src/services.py: processes every file,
builds the session, and records it with the undo manager exactly when it has
at least one success.  `now` stands for the timestamp-derived session id. -/
def rename_files (undo_manager : UndoManager) (env : OsEnv)
    (files : List FileInfo) (dest_folder job_number duplicate_mode now : Str)
    (fs : FS) : RenameSession × UndoManager × FS :=
  let (records, fs1) := processFiles env dest_folder duplicate_mode now files fs
  let session : RenameSession :=
    { id := now, records := records, timestamp := now, job_number := job_number }
  if session.success_count > 0 then
    (session, undo_manager.record_session session, fs1)
  else (session, undo_manager, fs1)

end RenameService

/-- An environment in which every move and copy succeeds. -/
def allOkEnv : OsEnv :=
  { moveOutcome := fun _ _ => MoveOutcome.ok,
    copyOutcome := fun _ _ => MoveOutcome.ok }

end FileRenamer

/-! ## Concrete evaluation checks

These reproduce the repository test suites (tests/test_utils.py,
tests/test_job_parser.py) and a few further concrete behaviours of the
embedded functions, as executable sanity anchors for the embedding. -/

section TestVectors
open FileRenamer

example : "ab".data = ['a', 'b'] := by decide
example : splitChar '_' "a__b".data = ["a".data, [], "b".data] := by decide
example : splitChar '_' [] = [[]] := by decide
example : rsplitLast '.' "a.b.c".data = some ("a.b".data, "c".data) := by decide
example : natToStr 6 = "6".data := by decide
example : parsePyInt "12".data = some 12 := by decide
example : parsePyInt "FINAL".data = none := by decide
example : basename "a/b.txt".data = "b.txt".data := by decide
example : splitext "d/a.tar.gz".data = ("d/a.tar".data, ".gz".data) := by decide
example : splitext ".bashrc".data = (".bashrc".data, []) := by decide
example : pySliceTo "abcdef".data (-2) = "abcd".data := by decide

example : sanitizeDefault "valid_file-name.txt".data = "valid_file-name.txt".data := by decide
example : sanitizeDefault [] = [] := by decide
example : sanitizeDefault "  file.txt  ".data = "file.txt".data := by decide
example : sanitizeDefault "CON.txt".data = "_CON.txt".data := by decide
example : sanitizeDefault " ".data = "unnamed".data := by decide
example : sanitizeDefault "a.".data = "a".data := by decide
example : validate_filename "valid_file.txt".data = (true, []) := by decide
example : (validate_filename [] ).1 = false := by decide
example : (validate_filename "CON".data).1 = false := by decide
example : (validate_filename "a.".data).1 = true := by decide

example :
    JobFolderParser.parse "12345_JohnDoe_AcmeCorp_MUG-11OZ x 100_(PO-98765)".data =
      { job_number := "12345".data, customer := "JohnDoe".data,
        company := "AcmeCorp".data, sku := "MUG-11OZ".data,
        quantity := "100".data, po_number := "PO-98765".data,
        raw := "12345_JohnDoe_AcmeCorp_MUG-11OZ x 100_(PO-98765)".data } := by
  decide

example :
    (JobFolderParser.parse "12345_JohnDoe_AcmeCorp_MUG-11OZ x 100".data).po_number
      = [] := by decide

example :
    (JobFolderParser.parse "12345_JohnDoe_AcmeCorp_MUG-11OZ_(PO-98765)".data).sku
      = "MUG-11OZ".data := by decide

example :
    (JobFolderParser.parse "12345_JohnDoe_AcmeCorp_MUG-11OZ x 100_[PO-98765]".data).po_number
      = "PO-98765".data := by decide

example : JobFolderParser.parse [] = emptyJobInfo := by decide

example :
    (JobFolderParser.parse "1_A_B_box5 x 2_(PO)".data).sku = "bo".data ∧
    (JobFolderParser.parse "1_A_B_box5 x 2_(PO)".data).quantity = "5".data := by
  decide

example :
    (JobFolderParser.parse "12345_JohnDoe".data).get "job_number".data [] =
      PyValue.str "12345".data := by decide

example :
    (JobFolderParser.parse "12345_JohnDoe".data).get "nonexistent".data "default".data
      = PyValue.str "default".data := by decide

example :
    (RevisionDetector.make []).find_next_revision [] = "1".data := by decide
example :
    (RevisionDetector.make defaultRevisionList).find_next_revision
      ["1".data, "2".data, "4".data] = "5".data := by decide
example :
    (RevisionDetector.make defaultRevisionList).find_next_revision
      ["3".data, "FINAL".data] = "FINAL".data := by decide
example :
    (RevisionDetector.make []).find_next_revision ["5".data] = "FINAL".data := by
  decide
example : claimedNextRevision [] ["5".data] = "6".data := by decide

example :
    (RenameService.rename_files (UndoManager.init 50) allOkEnv
      [⟨"src/a.txt".data, "b.txt".data⟩] "dest".data "1".data "skip".data
      "t0".data ["dest/b.txt".data]).1.records =
    [{ original_path := "src/a.txt".data, new_path := "dest/b.txt".data,
       operation := FileOperation.MOVE, timestamp := "t0".data,
       success := false, error := "File already exists".data }] := by decide

example :
    (RenameService.rename_files (UndoManager.init 50) allOkEnv
      [⟨"src/a.txt".data, "b.txt".data⟩] "dest".data "1".data "skip".data
      "t0".data []).2.1.undo_stack.length = 1 := by decide

example :
    (RenameService.rename_files (UndoManager.init 50) allOkEnv
      [⟨"src/a.txt".data, "b.txt".data⟩] "dest".data "1".data "increment".data
      "t0".data ["dest/b.txt".data]).1.records.map (fun r => r.new_path) =
    ["dest/b_1.txt".data] := by decide

example :
    ((UndoManager.init 50).undo allOkEnv []).1 =
      (false, "Nothing to undo".data, 0) := by decide

end TestVectors

namespace PyStr

/-! ## Generic lemmas about the string helpers -/

theorem dropWhile_eq_self_of_head (p : Char → Bool) (l : Str)
    (h : ∀ c, l.head? = some c → p c = false) : l.dropWhile p = l := by
  cases l with
  | nil => rfl
  | cons c t =>
    have hc : p c = false := h c rfl
    simp [List.dropWhile, hc]

theorem rdropWhileP_eq_self_of_getLast (p : Char → Bool) (l : Str)
    (h : ∀ c, l.getLast? = some c → p c = false) : rdropWhileP p l = l := by
  unfold rdropWhileP
  rw [dropWhile_eq_self_of_head p l.reverse (by simpa using h), List.reverse_reverse]

theorem stripP_eq_self (p : Char → Bool) (l : Str)
    (h1 : ∀ c, l.head? = some c → p c = false)
    (h2 : ∀ c, l.getLast? = some c → p c = false) : stripP p l = l := by
  unfold stripP
  rw [dropWhile_eq_self_of_head p l h1, rdropWhileP_eq_self_of_getLast p l h2]

theorem splitChar_ne_nil (sep : Char) (s : Str) : splitChar sep s ≠ [] := by
  cases s with
  | nil => simp [splitChar]
  | cons c t =>
    simp only [splitChar]
    split
    · simp
    · split <;> simp

theorem joinSep_splitChar (sep : Char) (s : Str) :
    joinSep [sep] (splitChar sep s) = s := by
  induction s with
  | nil => rfl
  | cons c t ih =>
    simp only [splitChar]
    by_cases hc : c = sep
    · subst hc
      simp only [if_pos rfl]
      rcases h : splitChar c t with _ | ⟨x, xs⟩
      · exact absurd h (splitChar_ne_nil c t)
      · rw [h] at ih
        simpa [joinSep] using ih
    · simp only [if_neg hc]
      rcases h : splitChar sep t with _ | ⟨x, xs⟩
      · exact absurd h (splitChar_ne_nil sep t)
      · rw [h] at ih
        cases xs with
        | nil => simpa [joinSep] using ih
        | cons y ys => simpa [joinSep] using ih

theorem splitChar_append (sep : Char) (x r : Str) (hx : ∀ c ∈ x, c ≠ sep) :
    splitChar sep (x ++ sep :: r) = x :: splitChar sep r := by
  induction x with
  | nil => simp [splitChar]
  | cons c t ih =>
    have hc : c ≠ sep := hx c (by simp)
    have ih2 := ih (fun d hd => hx d (by simp [hd]))
    simp only [List.cons_append, splitChar, if_neg hc, List.append_eq]
    rw [ih2]

end PyStr

namespace FileRenamer

/-! ## Lemmas about sanitize_filename -/

theorem clampLength_ne_nil (s : Str) (h : s ≠ []) : clampLength s ≠ [] := by
  unfold clampLength
  split
  · rename_i hlen
    rcases hsp : rsplitLast '.' s with _ | ⟨name, ext⟩
    · simp only [hsp]
      intro htake
      rcases List.take_eq_nil_iff.mp htake with h200 | hnil
      · omega
      · exact h hnil
    · simp [hsp]
  · exact h

theorem substituteInvalid_id (s r : Str) (h : ∀ c ∈ s, isInvalidChar c = false) :
    substituteInvalid s r = s := by
  unfold substituteInvalid
  induction s with
  | nil => rfl
  | cons c t ih =>
    have hc : isInvalidChar c = false := h c (by simp)
    have ih2 := ih (fun d hd => h d (by simp [hd]))
    simp only [List.flatMap_cons, hc, Bool.false_eq_true, if_false] at *
    simpa using ih2

theorem sanitizeDefault_ne_nil (s : Str) (h : s ≠ []) : sanitizeDefault s ≠ [] := by
  unfold sanitizeDefault sanitize_filename
  rw [if_neg h]
  apply clampLength_ne_nil
  split
  · simp
  · split
    · decide
    · rename_i hx
      exact hx

/-- The heart of claims C6 and C7: sanitize is the identity on names that
need none of its rewrites. -/
theorem sanitize_eq_self_of_safe (N : Str)
    (h1 : ∀ c ∈ N, isInvalidChar c = false)
    (h2 : ∀ c, N.head? = some c → isSpaceDot c = false)
    (h3 : ∀ c, N.getLast? = some c → isSpaceDot c = false)
    (h4 : upperStem N ∉ WINDOWS_RESERVED)
    (h5 : N.length ≤ 200) : sanitizeDefault N = N := by
  by_cases hnil : N = []
  · simp [hnil, sanitizeDefault, sanitize_filename]
  · have hstrip : stripSpaceDot N = N := stripP_eq_self _ N h2 h3
    unfold sanitizeDefault sanitize_filename
    simp only [if_neg hnil, substituteInvalid_id N ['_'] h1, hstrip, if_neg h4]
    unfold clampLength
    rw [if_neg (by omega : ¬ N.length > 200)]

end FileRenamer

namespace FileRenamer

/-- Equivalence between boolean head conditions and the pointwise form used by
the strip lemmas. -/
theorem head_cond_of_ne (N : Str) (hsp : N.head? ≠ some ' ') (hdot : N.head? ≠ some '.') :
    ∀ c, N.head? = some c → isSpaceDot c = false := by
  intro c hc
  have h1 : c ≠ ' ' := fun he => hsp (by rw [hc, he])
  have h2 : c ≠ '.' := fun he => hdot (by rw [hc, he])
  simp [isSpaceDot, h1, h2]

theorem last_cond_of_ne (N : Str) (hsp : N.getLast? ≠ some ' ') (hdot : N.getLast? ≠ some '.') :
    ∀ c, N.getLast? = some c → isSpaceDot c = false := by
  intro c hc
  have h1 : c ≠ ' ' := fun he => hsp (by rw [hc, he])
  have h2 : c ≠ '.' := fun he => hdot (by rw [hc, he])
  simp [isSpaceDot, h1, h2]

/-- The exact acceptance condition of `validate_filename`. -/
theorem validate_true_iff (t : Str) :
    validate_filename t = (true, []) ↔
      (t ≠ [] ∧ t.any isInvalidChar = false ∧ upperStem t ∉ WINDOWS_RESERVED ∧
        t.length ≤ 255) := by
  unfold validate_filename
  by_cases h1 : t = []
  · simp [h1]
  · rw [if_neg h1]
    by_cases h2 : t.any isInvalidChar
    · simp [h2]
    · rw [if_neg h2]
      by_cases h3 : upperStem t ∈ WINDOWS_RESERVED
      · simp [h3]
      · rw [if_neg h3]
        by_cases h4 : t.length > 255
        · rw [if_pos h4]
          simp only [Prod.mk.injEq]
          constructor
          · rintro ⟨h, -⟩
            exact absurd h (by simp)
          · rintro ⟨-, -, -, h⟩
            omega
        · rw [if_neg h4]
          simp only [Prod.mk.injEq, true_and]
          constructor
          · intro _
            refine ⟨h1, by simpa using h2, h3, by omega⟩
          · intro _
            trivial

end FileRenamer

namespace FileRenamer

/-! ## Claim C5 -/

/-- C5 counterexample: on the empty input the code returns the empty string
(as the repository test suite itself asserts), so sanitize is NOT non-empty
for every input. -/
theorem sanitize_empty_input_counterexample : sanitizeDefault [] = [] := by
  decide

/-- C5 (amended): `sanitize_filename` with the default replacement returns the
empty string on the empty input; for every NON-empty input the result is
non-empty, and whenever the sanitisation steps leave an empty intermediate
result (for a non-empty input) the literal token `unnamed` is returned. -/
theorem sanitize_nonempty_behavior :
    sanitizeDefault [] = [] ∧
    (∀ s : Str, s ≠ [] → sanitizeDefault s ≠ []) ∧
    (∀ s : Str, s ≠ [] → stripSpaceDot (substituteInvalid s ['_']) = [] →
      sanitizeDefault s = "unnamed".data) := by
  refine ⟨by decide, fun s hs => sanitizeDefault_ne_nil s hs, fun s hs hz => ?_⟩
  unfold sanitizeDefault sanitize_filename
  simp only [if_neg hs, hz]
  decide

theorem sanitize_nonempty_behavior_witness :
    sanitizeDefault "x".data ≠ [] ∧ sanitizeDefault " ".data = "unnamed".data :=
  ⟨sanitize_nonempty_behavior.2.1 "x".data (by decide),
   sanitize_nonempty_behavior.2.2 " ".data (by decide) (by decide)⟩

/-! ## Claim C6 -/

/-- C6 counterexample: `"a."` contains no forbidden character, is no reserved
device name and is well under 200 characters, yet sanitize is not the
identity on it (the trailing dot is trimmed). -/
theorem sanitize_trailing_dot_counterexample :
    sanitizeDefault "a.".data = "a".data ∧ "a".data ≠ "a.".data := by
  decide

/-- C6 (amended): sanitize is the identity on every name that contains no
forbidden or control character, neither starts nor ends with a space or a
dot, whose stem (text before the last dot, uppercased) is not a reserved
Windows device name, and whose length is at most 200. -/
theorem sanitize_identity_on_safe_names (N : Str)
    (h1 : ∀ c ∈ N, isInvalidChar c = false)
    (h2 : N.head? ≠ some ' ') (h2d : N.head? ≠ some '.')
    (h3 : N.getLast? ≠ some ' ') (h3d : N.getLast? ≠ some '.')
    (h4 : upperStem N ∉ WINDOWS_RESERVED)
    (h5 : N.length ≤ 200) : sanitizeDefault N = N :=
  sanitize_eq_self_of_safe N h1 (head_cond_of_ne N h2 h2d)
    (last_cond_of_ne N h3 h3d) h4 h5

theorem sanitize_identity_on_safe_names_witness :
    sanitizeDefault "file.txt".data = "file.txt".data :=
  sanitize_identity_on_safe_names "file.txt".data (by decide) (by decide)
    (by decide) (by decide) (by decide) (by decide) (by decide)

/-! ## Claim C7 -/

/-- C7 counterexample: `"a."` is accepted by `validate_filename` with
`(True, "")` although `sanitize_filename` does not leave it unchanged, so the
claimed equivalence between validation and sanitize-identity fails. -/
theorem validate_vs_sanitize_counterexample :
    validate_filename "a.".data = (true, []) ∧
    sanitizeDefault "a.".data ≠ "a.".data := by
  decide

/-- C7 (amended): `validate_filename t` returns `(True, "")` exactly when `t`
is non-empty, has no forbidden or control character, has a non-reserved stem
and is at most 255 characters — the same character-set and reserved-name
checks as sanitize but NOT its trimming or its 200-character clamp, and it
rejects the empty string which sanitize maps to itself.  On accepted names
that are additionally at most 200 characters and do not start or end with a
space or dot, sanitize is the identity. -/
theorem validate_filename_characterization :
    (∀ t : Str, validate_filename t = (true, []) ↔
      (t ≠ [] ∧ t.any isInvalidChar = false ∧ upperStem t ∉ WINDOWS_RESERVED ∧
        t.length ≤ 255)) ∧
    (∀ t : Str, validate_filename t = (true, []) → t.length ≤ 200 →
      t.head? ≠ some ' ' → t.head? ≠ some '.' →
      t.getLast? ≠ some ' ' → t.getLast? ≠ some '.' →
      sanitizeDefault t = t) := by
  refine ⟨validate_true_iff, fun t hv h200 hh1 hh2 hl1 hl2 => ?_⟩
  obtain ⟨-, hany, hres, -⟩ := (validate_true_iff t).mp hv
  refine sanitize_eq_self_of_safe t ?_ (head_cond_of_ne t hh1 hh2)
    (last_cond_of_ne t hl1 hl2) hres h200
  intro c hc
  by_contra hbad
  have : t.any isInvalidChar = true :=
    List.any_eq_true.mpr ⟨c, hc, by simpa using hbad⟩
  rw [this] at hany
  exact absurd hany (by simp)

theorem validate_filename_characterization_witness :
    validate_filename "valid_file.txt".data = (true, []) ∧
    sanitizeDefault "valid_file.txt".data = "valid_file.txt".data :=
  ⟨(validate_filename_characterization.1 "valid_file.txt".data).mpr (by decide),
   validate_filename_characterization.2 "valid_file.txt".data
     ((validate_filename_characterization.1 "valid_file.txt".data).mpr (by decide))
     (by decide) (by decide) (by decide) (by decide) (by decide)⟩

/-! ## Claim C9 -/

/-- C9: calling undo with an empty undo stack returns
`(False, "Nothing to undo", 0)` and calling redo with an empty redo stack
returns `(False, "Nothing to redo", 0)`; in both cases the manager (both
stacks) and the filesystem are returned unchanged, i.e. no filesystem action
is attempted. -/
theorem undo_redo_empty_stack_noop (m : UndoManager) (env : OsEnv) (fs : FS) :
    (m.undo_stack = [] →
      m.undo env fs = ((false, "Nothing to undo".data, 0), m, fs)) ∧
    (m.redo_stack = [] →
      m.redo env fs = ((false, "Nothing to redo".data, 0), m, fs)) := by
  constructor
  · intro h
    unfold UndoManager.undo
    rw [h]
    rfl
  · intro h
    unfold UndoManager.redo
    rw [h]
    rfl

theorem undo_redo_empty_stack_noop_witness :
    ((UndoManager.init 50).undo allOkEnv ["a".data] =
      ((false, "Nothing to undo".data, 0), UndoManager.init 50, ["a".data])) ∧
    ((UndoManager.init 50).redo allOkEnv ["a".data] =
      ((false, "Nothing to redo".data, 0), UndoManager.init 50, ["a".data])) :=
  ⟨(undo_redo_empty_stack_noop (UndoManager.init 50) allOkEnv ["a".data]).1 rfl,
   (undo_redo_empty_stack_noop (UndoManager.init 50) allOkEnv ["a".data]).2 rfl⟩

/-! ## Claim C10 -/

/-- C10 counterexample: `"__doc__"` names no field of the record, yet
`get("__doc__", "dflt")` returns the class docstring — a non-field attribute
found by `getattr`, truthy and so passed through `or default` — instead of
the default; likewise `"is_valid"` names no field but yields the bound
method, not the default. -/
theorem jobinfo_get_nonfield_attr_counterexample :
    (JobInfo.get
      { job_number := "12345".data, customer := [], company := [],
        sku := [], quantity := [], po_number := [], raw := [] }
      "__doc__".data "dflt".data =
      PyValue.str "Structured job information".data) ∧
    PyValue.str "Structured job information".data ≠ PyValue.str "dflt".data ∧
    (JobInfo.get
      { job_number := "12345".data, customer := [], company := [],
        sku := [], quantity := [], po_number := [], raw := [] }
      "is_valid".data "dflt".data = PyValue.method "is_valid".data) := by
  decide

/-- C10 (amended): `JobInfo.get(key, default)` returns the default when the
key names a dataclass field holding the empty (falsy) string, and the stored
value when that field is non-empty; for a non-dunder key naming no attribute
at all it returns the default; but a key naming a non-field attribute — the
class docstring `__doc__`, the bound methods `is_valid` and `get` —
surfaces that attribute (truthy, hence passed through `or default`) rather
than the default. -/
theorem jobinfo_get_attr_behavior (info : JobInfo) (key default : Str) :
    (∀ v, info.fieldLookup key = some v → v = [] →
      info.get key default = PyValue.str default) ∧
    (∀ v, info.fieldLookup key = some v → v ≠ [] →
      info.get key default = PyValue.str v) ∧
    (isDunderKey key = false → info.getattrModel key = none →
      info.get key default = PyValue.str default) ∧
    (info.get "__doc__".data default =
      PyValue.str "Structured job information".data) ∧
    (info.get "is_valid".data default = PyValue.method "is_valid".data) := by
  refine ⟨fun v hv hnil => ?_, fun v hv hne => ?_, fun _ h => ?_, rfl, rfl⟩
  · simp [JobInfo.get, JobInfo.getattrModel, hv, hnil]
  · simp [JobInfo.get, JobInfo.getattrModel, hv, hne]
  · simp [JobInfo.get, h]

theorem jobinfo_get_attr_behavior_witness :
    (JobInfo.get
      { job_number := "12345".data, customer := [], company := [],
        sku := [], quantity := [], po_number := [], raw := [] }
      "customer".data "dflt".data = PyValue.str "dflt".data) ∧
    (JobInfo.get
      { job_number := "12345".data, customer := [], company := [],
        sku := [], quantity := [], po_number := [], raw := [] }
      "job_number".data "dflt".data = PyValue.str "12345".data) ∧
    (JobInfo.get
      { job_number := "12345".data, customer := [], company := [],
        sku := [], quantity := [], po_number := [], raw := [] }
      "missing".data "dflt".data = PyValue.str "dflt".data) :=
  ⟨(jobinfo_get_attr_behavior _ _ _).1 [] (by decide) rfl,
   (jobinfo_get_attr_behavior _ _ _).2.1 "12345".data (by decide) (by decide),
   (jobinfo_get_attr_behavior _ _ _).2.2.1 (by decide) (by decide)⟩

/-! ## Claim C3 -/

/-- C3 counterexample: with an EMPTY configured vocabulary and scan result
`["5"]` the code returns `"FINAL"` (the constructor substitutes the default
vocabulary, in which `"FINAL"` is present and `maxNumeric = 5 >= 5`), while
the claimed cascade over the configured (empty) vocabulary demands the raw
candidate `"6"`. -/
theorem find_next_revision_empty_vocab_counterexample :
    (RevisionDetector.make []).find_next_revision ["5".data] = "FINAL".data ∧
    claimedNextRevision [] ["5".data] = "6".data ∧
    ("FINAL".data : Str) ≠ "6".data := by
  decide

/-- C3 (amended): `find_next_revision` follows the claimed cascade — first
vocabulary element (fallback `"1"`) on an empty scan, `"FINAL"` whenever
`"FINAL"` was found, else `str(maxNumeric+1)` if in the vocabulary, else
`"FINAL"` when `"FINAL"` is in the vocabulary and `maxNumeric >= 5`, else the
raw candidate — with respect to the EFFECTIVE vocabulary: the configured one,
or the default `["1","2","3","4","5","FINAL"]` substituted by the constructor
when the configured one is empty. -/
theorem find_next_revision_matches_spec_effective_vocab
    (vocab : List Str) (found : List Str) :
    (RevisionDetector.make vocab).find_next_revision found =
      claimedNextRevision (if vocab = [] then defaultRevisionList else vocab)
        found := by
  unfold RevisionDetector.make RevisionDetector.find_next_revision
    claimedNextRevision RevisionDetector.get_first_revision
    RevisionDetector.calculate_next_revision
  by_cases hf : found = []
  · simp only [if_pos hf]
  · simp only [if_neg hf]

end FileRenamer

namespace FileRenamer

/-! ## Claim C8 -/

theorem joinSep_underscore_ne_nil (parts : List Str) (hp : parts ≠ [])
    (helem : ∀ x ∈ parts, x ≠ []) : joinSep ['_'] parts ≠ [] := by
  cases parts with
  | nil => exact absurd rfl hp
  | cons x xs =>
    cases xs with
    | nil =>
      have hx : x ≠ [] := helem x (by simp)
      simpa [joinSep] using hx
    | cons y ys => simp [joinSep]

theorem mem_ite_singleton (c : Prop) [Decidable c] (v x : Str)
    (hx : x ∈ (if c then [v] else [])) : c ∧ x = v := by
  split at hx
  · simp only [List.mem_singleton] at hx
    exact ⟨by assumption, hx⟩
  · simp at hx

theorem RenameService.partsOf_elem_ne_nil (j s a u r : Str) :
    ∀ x ∈ RenameService.partsOf j s a u r, x ≠ [] := by
  intro x hx
  unfold RenameService.partsOf at hx
  simp only [List.mem_append] at hx
  rcases hx with ((((hx | hx) | hx) | hx) | hx)
  · obtain ⟨hc, rfl⟩ := mem_ite_singleton _ _ _ hx
    exact sanitizeDefault_ne_nil j hc
  · obtain ⟨hc, rfl⟩ := mem_ite_singleton _ _ _ hx
    exact sanitizeDefault_ne_nil s hc
  · obtain ⟨hc, rfl⟩ := mem_ite_singleton _ _ _ hx
    simp
  · obtain ⟨hc, rfl⟩ := mem_ite_singleton _ _ _ hx
    exact sanitizeDefault_ne_nil u hc
  · obtain ⟨hc, rfl⟩ := mem_ite_singleton _ _ _ hx
    exact sanitizeDefault_ne_nil r hc

theorem RenameService.partsOf_eq_nil_iff (j s a u r : Str) :
    RenameService.partsOf j s a u r = [] ↔ (j = [] ∧ s = [] ∧ a = [] ∧ u = [] ∧ r = []) := by
  constructor
  · intro he
    unfold RenameService.partsOf at he
    refine ⟨?_, ?_, ?_, ?_, ?_⟩ <;> by_contra hc <;> simp [hc] at he
  · rintro ⟨hj, hs, ha, hu, hr⟩
    unfold RenameService.partsOf
    simp [hj, hs, ha, hu, hr]

/-- C8 counterexample: with every part empty AND an empty source path the
function returns the empty basename of the source, so it is not true that it
never returns the empty string for every combination of inputs. -/
theorem generate_filename_empty_counterexample :
    RenameService.generate_filename [] [] [] [] [] [] = [] := by
  decide

/-- C8 (amended): when all five parts are empty, `generate_filename` returns
the original basename of the source path unchanged; the result is non-empty
whenever at least one part is non-empty, or the basename of the source path
is non-empty (so an empty result occurs only for all-empty parts combined
with an empty basename). -/
theorem generate_filename_basename_and_nonempty (p j s a u r : Str) :
    ((j = [] ∧ s = [] ∧ a = [] ∧ u = [] ∧ r = []) →
      RenameService.generate_filename p j s a u r = basename p) ∧
    ((j ≠ [] ∨ s ≠ [] ∨ a ≠ [] ∨ u ≠ [] ∨ r ≠ []) →
      RenameService.generate_filename p j s a u r ≠ []) ∧
    (basename p ≠ [] → RenameService.generate_filename p j s a u r ≠ []) := by
  refine ⟨?_, ?_, ?_⟩
  · rintro ⟨hj, hs, ha, hu, hr⟩
    unfold RenameService.generate_filename
    rw [if_pos ((RenameService.partsOf_eq_nil_iff j s a u r).mpr ⟨hj, hs, ha, hu, hr⟩)]
  · intro hdisj
    unfold RenameService.generate_filename
    have hne : RenameService.partsOf j s a u r ≠ [] := by
      intro he
      obtain ⟨hj, hs, ha, hu, hr⟩ :=
        (RenameService.partsOf_eq_nil_iff j s a u r).mp he
      rcases hdisj with h | h | h | h | h <;> exact h (by assumption)
    rw [if_neg hne]
    intro hbad
    rcases List.append_eq_nil.mp hbad with ⟨hjoin, -⟩
    exact joinSep_underscore_ne_nil _ hne (RenameService.partsOf_elem_ne_nil j s a u r) hjoin
  · intro hb
    unfold RenameService.generate_filename
    by_cases hpe : RenameService.partsOf j s a u r = []
    · rw [if_pos hpe]
      exact hb
    · rw [if_neg hpe]
      intro hbad
      rcases List.append_eq_nil.mp hbad with ⟨hjoin, -⟩
      exact joinSep_underscore_ne_nil _ hpe (RenameService.partsOf_elem_ne_nil j s a u r) hjoin

theorem generate_filename_basename_and_nonempty_witness :
    (RenameService.generate_filename "d/a.txt".data [] [] [] [] [] =
      basename "d/a.txt".data) ∧
    RenameService.generate_filename "d/a.txt".data "12345".data [] [] [] [] ≠ [] :=
  ⟨(generate_filename_basename_and_nonempty "d/a.txt".data [] [] [] [] []).1
     ⟨rfl, rfl, rfl, rfl, rfl⟩,
   (generate_filename_basename_and_nonempty "d/a.txt".data "12345".data
     [] [] [] []).2.1 (Or.inl (by decide))⟩

end FileRenamer

namespace FileRenamer

/-! ## Claim C2 -/

theorem trimHistoryAux_zero (max : Nat) (l : List RenameSession) :
    trimHistoryAux max 0 l = l := rfl

theorem trimHistoryAux_succ (max fuel : Nat) (l : List RenameSession) :
    trimHistoryAux max (fuel + 1) l =
      if l.length > max then trimHistoryAux max fuel l.tail else l := rfl

theorem trimHistoryAux_length_le (max : Nat) :
    ∀ (fuel : Nat) (l : List RenameSession), l.length ≤ max + fuel →
      (trimHistoryAux max fuel l).length ≤ max := by
  intro fuel
  induction fuel with
  | zero =>
    intro l hl
    rw [trimHistoryAux_zero]
    omega
  | succ k ih =>
    intro l hl
    rw [trimHistoryAux_succ]
    split
    · rename_i hgt
      apply ih
      simp only [List.length_tail]
      omega
    · rename_i hng
      omega

theorem record_session_length_le (m : UndoManager) (s : RenameSession) :
    (m.record_session s).undo_stack.length ≤ m.max_history := by
  unfold UndoManager.record_session trimHistory
  exact trimHistoryAux_length_le m.max_history _ _ (by omega)

theorem record_session_evicts_oldest (m : UndoManager) (s : RenameSession)
    (hfull : m.undo_stack.length = m.max_history) (hpos : 0 < m.max_history) :
    (m.record_session s).undo_stack = m.undo_stack.tail ++ [s] := by
  unfold UndoManager.record_session trimHistory
  have hlen : (m.undo_stack ++ [s]).length = m.max_history + 1 := by
    simp [hfull]
  rw [hlen, trimHistoryAux_succ, if_pos (by simp [hfull])]
  have htail : (m.undo_stack ++ [s]).tail = m.undo_stack.tail ++ [s] := by
    rcases hu : m.undo_stack with _ | ⟨a, l⟩
    · rw [hu] at hfull
      simp at hfull
      omega
    · simp
  rw [htail]
  obtain ⟨k, hk⟩ : ∃ k, m.max_history = k + 1 := ⟨m.max_history - 1, by omega⟩
  rw [hk, trimHistoryAux_succ, if_neg ?_]
  simp only [List.length_append, List.length_tail, List.length_cons,
    List.length_nil, hfull, hk]
  omega

theorem undo_stack_effect (m : UndoManager) (env : OsEnv) (fs : FS) :
    (m.undo env fs).2.1.max_history = m.max_history ∧
    (m.undo env fs).2.1.undo_stack.length +
      (m.undo env fs).2.1.redo_stack.length ≤
      m.undo_stack.length + m.redo_stack.length := by
  unfold UndoManager.undo
  rcases hg : m.undo_stack.getLast? with _ | session
  · simp
  · have hlen : 0 < m.undo_stack.length := by
      rcases hu : m.undo_stack with _ | ⟨a, l⟩
      · rw [hu] at hg
        simp at hg
      · simp
    rcases hfl : session.records.reverse.foldl (UndoManager.undoRecord env)
        (fs, 0, []) with ⟨fs2, rest2⟩
    rcases rest2 with ⟨restored, errors⟩
    simp only [hfl]
    split <;>
    · refine ⟨rfl, ?_⟩
      simp only [List.length_dropLast, List.length_append, List.length_cons,
        List.length_nil]
      omega

theorem redo_stack_effect (m : UndoManager) (env : OsEnv) (fs : FS) :
    (m.redo env fs).2.1.max_history = m.max_history ∧
    (m.redo env fs).2.1.undo_stack.length +
      (m.redo env fs).2.1.redo_stack.length ≤
      m.undo_stack.length + m.redo_stack.length := by
  unfold UndoManager.redo
  rcases hg : m.redo_stack.getLast? with _ | session
  · simp
  · have hlen : 0 < m.redo_stack.length := by
      rcases hu : m.redo_stack with _ | ⟨a, l⟩
      · rw [hu] at hg
        simp at hg
      · simp
    rcases hfl : session.records.foldl (UndoManager.redoRecord env)
        (fs, 0, []) with ⟨fs2, rest2⟩
    rcases rest2 with ⟨renamed, errors⟩
    simp only [hfl]
    split <;>
    · refine ⟨rfl, ?_⟩
      simp only [List.length_dropLast, List.length_append, List.length_cons,
        List.length_nil]
      omega

theorem reachable_load_le (m : UndoManager) (hm : ReachableU m) :
    m.undo_stack.length + m.redo_stack.length ≤ m.max_history := by
  induction hm with
  | init max => simp [UndoManager.init]
  | record m s hr ih =>
    have h1 := record_session_length_le m s
    have h2 : (m.record_session s).redo_stack = [] := rfl
    have h3 : (m.record_session s).max_history = m.max_history := rfl
    rw [h2, h3]
    simpa using h1
  | undo m env fs hr ih =>
    have h := undo_stack_effect m env fs
    rw [h.1]
    exact le_trans h.2 ih
  | redo m env fs hr ih =>
    have h := redo_stack_effect m env fs
    rw [h.1]
    exact le_trans h.2 ih

/-- C2: recording a session always clears the redo stack; along every
sequence of record/undo/redo operations from a fresh manager the undo stack
length never exceeds max_history; and when recording into a full history the
oldest (index 0) session is evicted. -/
theorem undo_manager_history_invariants :
    (∀ (m : UndoManager) (s : RenameSession),
      (m.record_session s).redo_stack = []) ∧
    (∀ m : UndoManager, ReachableU m →
      m.undo_stack.length ≤ m.max_history) ∧
    (∀ (m : UndoManager) (s : RenameSession),
      m.undo_stack.length = m.max_history → 0 < m.max_history →
      (m.record_session s).undo_stack = m.undo_stack.tail ++ [s]) := by
  refine ⟨fun m s => rfl, fun m hm => ?_, record_session_evicts_oldest⟩
  have := reachable_load_le m hm
  omega

theorem undo_manager_history_invariants_witness :
    ((((UndoManager.init 1).record_session
          { id := "a".data, records := [], timestamp := [], job_number := [] }).record_session
          { id := "b".data, records := [], timestamp := [], job_number := [] }).undo_stack.length ≤
      (((UndoManager.init 1).record_session
          { id := "a".data, records := [], timestamp := [], job_number := [] }).record_session
          { id := "b".data, records := [], timestamp := [], job_number := [] }).max_history) ∧
    (({ max_history := 1,
        undo_stack := [{ id := "a".data, records := [], timestamp := [],
                         job_number := [] }],
        redo_stack := [] } : UndoManager).record_session
        { id := "b".data, records := [], timestamp := [], job_number := [] }).undo_stack =
      [{ id := "b".data, records := [], timestamp := [], job_number := [] }] :=
  ⟨undo_manager_history_invariants.2.1 _
    (ReachableU.record _ _ (ReachableU.record _ _ (ReachableU.init 1))),
   undo_manager_history_invariants.2.2
    { max_history := 1,
      undo_stack := [{ id := "a".data, records := [], timestamp := [],
                       job_number := [] }],
      redo_stack := [] }
    { id := "b".data, records := [], timestamp := [], job_number := [] }
    (by decide) (by decide)⟩

end FileRenamer


namespace FileRenamer

/-! ## Claim C1 -/

theorem probeUnique_error_msg (fs : FS) (dir stem suffix : Str) :
    ∀ (fuel n : Nat) (msg : Str),
      probeUnique fs dir stem suffix n fuel = Except.error msg →
      msg = uniqueProbeMsg := by
  intro fuel
  induction fuel with
  | zero =>
    intro n msg h
    unfold probeUnique at h
    injection h with h
    exact h.symm
  | succ k ih =>
    intro n msg h
    unfold probeUnique at h
    dsimp only at h
    split at h
    · exact ih _ _ h
    · exact absurd h (by simp)

theorem get_unique_path_error_msg (fs : FS) (p msg : Str)
    (h : get_unique_path fs p = Except.error msg) : msg = uniqueProbeMsg := by
  unfold get_unique_path at h
  dsimp only at h
  split at h
  · exact absurd h (by simp)
  · exact probeUnique_error_msg fs _ _ _ 9999 1 msg h

theorem doMove_original_path (env : OsEnv) (record : RenameRecord)
    (src dst : Str) (fs : FS) :
    (RenameService.doMove env record src dst fs).1.original_path =
      record.original_path := by
  unfold RenameService.doMove
  cases env.moveOutcome src dst <;> rfl

theorem doMove_error (env : OsEnv) (record : RenameRecord) (src dst : Str)
    (fs : FS)
    (henv : ∀ msg, env.moveOutcome src dst = MoveOutcome.otherError msg →
      msg ≠ []) :
    (RenameService.doMove env record src dst fs).1.success = false →
    (RenameService.doMove env record src dst fs).1.error ≠ [] := by
  unfold RenameService.doMove
  cases h : env.moveOutcome src dst with
  | ok => intro hs; simp at hs
  | permissionError => intro _; simp
  | fileNotFoundError => intro _; simp
  | otherError msg => intro _; exact henv msg h

theorem processFile_original_path (env : OsEnv) (d m now : Str) (fs : FS)
    (fi : RenameService.FileInfo) :
    (RenameService.processFile env d m now fs fi).1.original_path = fi.path := by
  unfold RenameService.processFile
  dsimp only
  by_cases hex : fsExists fs (osPathJoin d fi.new_name) = true
  · rw [if_pos hex]
    by_cases hskip : m = "skip".data
    · rw [if_pos hskip]
    · rw [if_neg hskip]
      by_cases hinc : m = "increment".data
      · rw [if_pos hinc]
        rcases h : get_unique_path fs (osPathJoin d fi.new_name) with msg | p <;>
          simp only [h]
        rw [doMove_original_path]
      · rw [if_neg hinc]
        by_cases hov : m = "overwrite".data
        · rw [if_pos hov, doMove_original_path]
        · rw [if_neg hov, doMove_original_path]
  · rw [if_neg hex, doMove_original_path]

theorem processFile_error (env : OsEnv) (d m now : Str) (fs : FS)
    (fi : RenameService.FileInfo)
    (henv : ∀ src dst msg,
      env.moveOutcome src dst = MoveOutcome.otherError msg → msg ≠ []) :
    (RenameService.processFile env d m now fs fi).1.success = false →
    (RenameService.processFile env d m now fs fi).1.error ≠ [] := by
  unfold RenameService.processFile
  dsimp only
  by_cases hex : fsExists fs (osPathJoin d fi.new_name) = true
  · rw [if_pos hex]
    by_cases hskip : m = "skip".data
    · rw [if_pos hskip]
      intro _
      simp
    · rw [if_neg hskip]
      by_cases hinc : m = "increment".data
      · rw [if_pos hinc]
        rcases h : get_unique_path fs (osPathJoin d fi.new_name) with msg | p <;>
          simp only [h]
        · intro _
          rw [get_unique_path_error_msg fs _ msg h]
          decide
        · exact doMove_error env _ _ _ _ (fun msg hh => henv _ _ msg hh)
      · rw [if_neg hinc]
        by_cases hov : m = "overwrite".data
        · rw [if_pos hov]
          exact doMove_error env _ _ _ _ (fun msg hh => henv _ _ msg hh)
        · rw [if_neg hov]
          exact doMove_error env _ _ _ _ (fun msg hh => henv _ _ msg hh)
  · rw [if_neg hex]
    exact doMove_error env _ _ _ _ (fun msg hh => henv _ _ msg hh)

theorem processFiles_map_path (env : OsEnv) (d m now : Str) :
    ∀ (files : List RenameService.FileInfo) (fs : FS),
      (RenameService.processFiles env d m now files fs).1.map
          (fun r => r.original_path) =
        files.map (fun fi => fi.path) := by
  intro files
  induction files with
  | nil => intro fs; rfl
  | cons fi rest ih =>
    intro fs
    unfold RenameService.processFiles
    dsimp only
    simp only [List.map_cons, processFile_original_path, ih]

theorem processFiles_errors (env : OsEnv) (d m now : Str)
    (henv : ∀ src dst msg,
      env.moveOutcome src dst = MoveOutcome.otherError msg → msg ≠ []) :
    ∀ (files : List RenameService.FileInfo) (fs : FS),
      ∀ r ∈ (RenameService.processFiles env d m now files fs).1,
        r.success = false → r.error ≠ [] := by
  intro files
  induction files with
  | nil =>
    intro fs r hr
    simp [RenameService.processFiles] at hr
  | cons fi rest ih =>
    intro fs r hr
    unfold RenameService.processFiles at hr
    dsimp only at hr
    simp only [List.mem_cons] at hr
    rcases hr with hr | hr
    · subst hr
      exact processFile_error env d m now fs fi henv
    · exact ih _ r hr

/-- C1: `rename_files` returns a session with exactly one record per input
file in input order (every per-file error — pre-existing target under skip,
PermissionError, FileNotFoundError, exhausted increment probing, or any other
exception — is captured on that file's record with `success = false` and a
non-empty message, and processing continues past it), and the session is
registered with the undo manager exactly when its `success_count` is
positive.  The environment hypothesis states that raised exceptions carry a
non-empty `str(e)` text. -/
theorem rename_files_error_isolation
    (undo_manager : UndoManager) (env : OsEnv)
    (files : List RenameService.FileInfo)
    (dest_folder job_number duplicate_mode now : Str) (fs : FS)
    (session : RenameSession) (um2 : UndoManager) (fs2 : FS)
    (henv : ∀ src dst msg,
      env.moveOutcome src dst = MoveOutcome.otherError msg → msg ≠ [])
    (hrun : RenameService.rename_files undo_manager env files dest_folder
      job_number duplicate_mode now fs = (session, um2, fs2)) :
    session.records.map (fun r => r.original_path) =
        files.map (fun fi => fi.path) ∧
    (∀ r ∈ session.records, r.success = false → r.error ≠ []) ∧
    (um2 = if 0 < session.success_count
      then undo_manager.record_session session else undo_manager) := by
  unfold RenameService.rename_files at hrun
  dsimp only at hrun
  split at hrun
  · rename_i hpos
    rw [Prod.mk.injEq, Prod.mk.injEq] at hrun
    obtain ⟨hsess, hum, -⟩ := hrun
    subst hsess
    subst hum
    refine ⟨processFiles_map_path env _ _ _ files fs, ?_, ?_⟩
    · intro r hr
      exact processFiles_errors env _ _ _ henv files fs r hr
    · rw [if_pos hpos]
  · rename_i hpos
    rw [Prod.mk.injEq, Prod.mk.injEq] at hrun
    obtain ⟨hsess, hum, -⟩ := hrun
    subst hsess
    subst hum
    refine ⟨processFiles_map_path env _ _ _ files fs, ?_, ?_⟩
    · intro r hr
      exact processFiles_errors env _ _ _ henv files fs r hr
    · rw [if_neg hpos]

theorem rename_files_error_isolation_witness :
    ((RenameService.rename_files (UndoManager.init 50) allOkEnv
        [⟨"src/a.txt".data, "b.txt".data⟩] "dest".data "1".data "skip".data
        "t0".data []).1.records.map (fun r => r.original_path) =
      ["src/a.txt".data] ∧
    (∀ r ∈ (RenameService.rename_files (UndoManager.init 50) allOkEnv
        [⟨"src/a.txt".data, "b.txt".data⟩] "dest".data "1".data "skip".data
        "t0".data []).1.records, r.success = false → r.error ≠ []) ∧
    ((RenameService.rename_files (UndoManager.init 50) allOkEnv
        [⟨"src/a.txt".data, "b.txt".data⟩] "dest".data "1".data "skip".data
        "t0".data []).2.1 =
      if 0 < (RenameService.rename_files (UndoManager.init 50) allOkEnv
        [⟨"src/a.txt".data, "b.txt".data⟩] "dest".data "1".data "skip".data
        "t0".data []).1.success_count
      then (UndoManager.init 50).record_session
        (RenameService.rename_files (UndoManager.init 50) allOkEnv
          [⟨"src/a.txt".data, "b.txt".data⟩] "dest".data "1".data "skip".data
          "t0".data []).1
      else UndoManager.init 50)) := by
  have h := rename_files_error_isolation (UndoManager.init 50) allOkEnv
    [⟨"src/a.txt".data, "b.txt".data⟩] "dest".data "1".data "skip".data
    "t0".data []
    (RenameService.rename_files (UndoManager.init 50) allOkEnv
      [⟨"src/a.txt".data, "b.txt".data⟩] "dest".data "1".data "skip".data
      "t0".data []).1
    (RenameService.rename_files (UndoManager.init 50) allOkEnv
      [⟨"src/a.txt".data, "b.txt".data⟩] "dest".data "1".data "skip".data
      "t0".data []).2.1
    (RenameService.rename_files (UndoManager.init 50) allOkEnv
      [⟨"src/a.txt".data, "b.txt".data⟩] "dest".data "1".data "skip".data
      "t0".data []).2.2
    (fun src dst msg hh => nomatch hh) rfl
  exact ⟨h.1, h.2.1, h.2.2⟩

end FileRenamer

namespace FileRenamer

/-! ## Claim C4 support lemmas -/

theorem digit_not_ws (c : Char) (h : isPyDigit c = true) : isPyWs c = false := by
  by_contra hw
  rw [Bool.not_eq_false] at hw
  unfold isPyWs at hw
  simp only [Bool.or_eq_true, decide_eq_true_eq] at hw
  rcases hw with ((((hc | hc) | hc) | hc) | hc) | hc <;> subst hc <;>
    exact absurd h (by decide)

theorem digit_not_open (c : Char) (h : isPyDigit c = true) :
    JobFolderParser.isOpenBr c = false := by
  by_contra hw
  rw [Bool.not_eq_false] at hw
  unfold JobFolderParser.isOpenBr at hw
  simp only [Bool.or_eq_true, decide_eq_true_eq] at hw
  rcases hw with hc | hc <;> subst hc <;> exact absurd h (by decide)

theorem digit_not_stripSep (c : Char) (h : isPyDigit c = true) :
    isStripSep c = false := by
  by_contra hw
  rw [Bool.not_eq_false] at hw
  unfold isStripSep at hw
  simp only [Bool.or_eq_true, decide_eq_true_eq] at hw
  rcases hw with (hc | hc) | hc <;> subst hc <;> exact absurd h (by decide)

theorem takeWhile_all_eq (p : Char → Bool) (l : Str)
    (h : ∀ c ∈ l, p c = true) : l.takeWhile p = l :=
  List.takeWhile_eq_self_iff.mpr h

theorem dropWhile_head_false (p : Char → Bool) :
    ∀ (l : Str) (c : Char) (r : Str), l.dropWhile p = c :: r → p c = false := by
  intro l
  induction l with
  | nil => intro c r h; simp at h
  | cons a t ih =>
    intro c r h
    rw [List.dropWhile_cons] at h
    split at h
    · exact ih c r h
    · rename_i hpa
      injection h with h1 h2
      subst h1
      simpa using hpa

theorem getLast?_mem_str (l : Str) (a : Char) (h : l.getLast? = some a) :
    a ∈ l :=
  List.mem_of_mem_getLast? (Option.mem_def.mpr h)

theorem stripP_eq_self_last (p : Char → Bool) (l : Str) (h : stripP p l = l)
    (a : Char) (ha : l.getLast? = some a) : p a = false := by
  have h2 : (l.dropWhile p).reverse.dropWhile p = l.reverse := by
    unfold stripP rdropWhileP at h
    have h2 := congrArg List.reverse h
    rwa [List.reverse_reverse] at h2
  rcases hr : l.reverse with _ | ⟨c, r2⟩
  · rw [← List.head?_reverse, hr] at ha
    simp at ha
  · rw [hr] at h2
    have hc : c = a := by
      rw [← List.head?_reverse, hr] at ha
      simpa using ha
    subst hc
    exact dropWhile_head_false p _ c r2 h2

/-- A list whose head fails `p` is untouched by `dropWhile`. -/
theorem dropWhile_eq_self_of_head_mem (p : Char → Bool) (l : Str)
    (h : ∀ c, l.head? = some c → p c = false) : l.dropWhile p = l :=
  dropWhile_eq_self_of_head p l h

end FileRenamer

namespace FileRenamer

open JobFolderParser

theorem tailPoMatch_concat (PO : Str) (h1 : PO ≠ [])
    (h2 : ∀ c ∈ PO, isCloseBr c = false) :
    tailPoMatch (PO ++ [')']) = some PO := by
  unfold tailPoMatch
  rw [List.getLast?_concat]
  dsimp only
  rw [if_pos (by decide : isCloseBr ')' = true)]
  rw [List.dropLast_concat]
  rw [if_pos ?_]
  simp only [Bool.and_eq_true, decide_eq_true_eq]
  refine ⟨h1, ?_⟩
  rw [List.all_eq_true]
  intro d hd
  simp [h2 d hd]

theorem poSearchAux_concat (PO : Str) (h1 : PO ≠ [])
    (h2 : ∀ c ∈ PO, isCloseBr c = false) :
    ∀ (pre acc : Str), (∀ c ∈ pre, isOpenBr c = false) →
      poSearchAux acc (pre ++ '(' :: (PO ++ [')'])) =
        some (acc.reverse ++ pre, PO) := by
  intro pre
  induction pre with
  | nil =>
    intro acc hpre
    rw [List.nil_append]
    unfold poSearchAux
    rw [if_pos (by decide : isOpenBr '(' = true)]
    rw [tailPoMatch_concat PO h1 h2]
    simp
  | cons c pre2 ih =>
    intro acc hpre
    have hc : isOpenBr c = false := hpre c (by simp)
    rw [List.cons_append]
    unfold poSearchAux
    rw [if_neg (by simp [hc])]
    rw [ih (c :: acc) (fun d hd => hpre d (by simp [hd]))]
    simp

theorem tailXMatch_junction (N : Str) (hN1 : N ≠ [])
    (hN2 : ∀ c ∈ N, isPyDigit c = true) :
    tailXMatch (' ' :: 'x' :: ' ' :: N) = some N := by
  have hNdrop : N.dropWhile isPyWs = N := by
    apply dropWhile_eq_self_of_head
    intro c hc
    exact digit_not_ws c (hN2 c (List.mem_of_mem_head? (Option.mem_def.mpr hc)))
  have hNtake : N.takeWhile isPyDigit = N := takeWhile_all_eq _ _ hN2
  unfold tailXMatch
  rw [List.dropWhile_cons, if_pos (by decide : isPyWs ' ' = true)]
  rw [List.dropWhile_cons, if_neg (by decide : ¬ isPyWs 'x' = true)]
  simp only [tailXMatchCore]
  rw [List.dropWhile_cons, if_pos (by decide : isPyWs ' ' = true)]
  rw [hNdrop, hNtake]
  simp [hN1]

theorem tailXMatch_extend_none (u : Str) (N : Str)
    (h1 : tailXMatch u = none)
    (h2 : ∃ c ∈ u, isPyWs c = false) :
    tailXMatch (u ++ ' ' :: 'x' :: ' ' :: N) = none := by
  have hne : u.dropWhile isPyWs ≠ [] := by
    intro hd
    obtain ⟨c, hc, hcw⟩ := h2
    have := List.dropWhile_eq_nil_iff.mp hd c hc
    rw [this] at hcw
    exact absurd hcw (by simp)
  unfold tailXMatch at h1 ⊢
  rw [List.dropWhile_append]
  rw [if_neg (by simpa using hne)]
  rcases hu : u.dropWhile isPyWs with _ | ⟨c, rest⟩
  · exact absurd hu hne
  · rw [hu] at h1
    rw [List.cons_append]
    simp only [tailXMatchCore] at h1 ⊢
    by_cases hx : (c = 'x' || c = 'X') = true
    · rw [if_pos hx] at h1 ⊢
      -- h1 forces the digit run after the x to be empty
      split at h1
      · rename_i hds
        -- show the extended digit run is empty too
        rw [if_pos ?_]
        rcases hr : rest.dropWhile isPyWs with _ | ⟨d, r2⟩
        · -- rest is all whitespace; after the junction we hit the literal x
          rw [List.dropWhile_append, if_pos (by simp [hr])]
          rw [List.dropWhile_cons, if_pos (by decide : isPyWs ' ' = true)]
          rw [List.dropWhile_cons, if_neg (by decide : ¬ isPyWs 'x' = true)]
          rw [List.takeWhile_cons, if_neg (by decide : ¬ isPyDigit 'x' = true)]
        · have hdig : isPyDigit d = false := by
            rw [hr] at hds
            rw [List.takeWhile_cons] at hds
            by_contra hdd
            rw [Bool.not_eq_false] at hdd
            rw [if_pos hdd] at hds
            simp at hds
          rw [List.dropWhile_append, if_neg (by simp [hr])]
          rw [hr, List.cons_append, List.takeWhile_cons, if_neg (by simp [hdig])]
      · exact absurd h1 (by simp)
    · rw [if_neg hx] at h1 ⊢

end FileRenamer

namespace FileRenamer

open JobFolderParser

theorem skuMatchAux_full (N SKU : Str) (hN1 : N ≠ [])
    (hN2 : ∀ c ∈ N, isPyDigit c = true)
    (hS2 : pyStrip SKU = SKU) (hS3 : '\n' ∉ SKU)
    (hS5 : ∀ l2, l2 < SKU.length → 0 < l2 →
      tailXMatch (SKU.drop l2) = none) :
    ∀ (u acc : Str), u ≠ [] → SKU = acc.reverse ++ u →
      skuMatchAux acc (u ++ ' ' :: 'x' :: ' ' :: N) = some (SKU, N) := by
  intro u
  induction u with
  | nil =>
    intro acc hne _
    exact absurd rfl hne
  | cons c u2 ih =>
    intro acc hne hsk
    have hcS : c ∈ SKU := by
      rw [hsk]
      simp
    have hcn : ¬ c = '\n' := fun he => hS3 (he ▸ hcS)
    rw [List.cons_append]
    simp only [skuMatchAux]
    rw [if_neg hcn]
    cases u2 with
    | nil =>
      rw [List.nil_append, tailXMatch_junction N hN1 hN2]
      show some ((c :: acc).reverse, N) = some (SKU, N)
      rw [hsk]
      simp
    | cons c2 u3 =>
      have hSne : SKU ≠ [] := by
        rw [hsk]
        simp
      have hassoc : SKU = (acc.reverse ++ [c]) ++ (c2 :: u3) := by
        rw [hsk]
        simp
      have hdrop : SKU.drop (acc.length + 1) = c2 :: u3 := by
        rw [hassoc, show acc.length + 1 = (acc.reverse ++ [c]).length by simp]
        exact List.drop_left _ _
      have hlt : acc.length + 1 < SKU.length := by
        rw [hsk]
        simp only [List.length_append, List.length_reverse, List.length_cons]
        omega
      have hnone : tailXMatch (c2 :: u3) = none := by
        have := hS5 (acc.length + 1) hlt (by omega)
        rwa [hdrop] at this
      have hlastSKU : ∃ d ∈ (c2 :: u3), isPyWs d = false := by
        obtain ⟨a, ha⟩ : ∃ a, SKU.getLast? = some a := by
          rcases hgl : SKU.getLast? with _ | a
          · rw [List.getLast?_eq_none_iff] at hgl
            exact absurd hgl hSne
          · exact ⟨a, rfl⟩
        have hlaw : isPyWs a = false := stripP_eq_self_last isPyWs SKU hS2 a ha
        have hmem : a ∈ (c2 :: u3) := by
          rw [hassoc, List.getLast?_append_of_ne_nil _ (by simp)] at ha
          exact getLast?_mem_str _ _ ha
        exact ⟨a, hmem, hlaw⟩
      rw [tailXMatch_extend_none (c2 :: u3) N hnone hlastSKU]
      show skuMatchAux (c :: acc) ((c2 :: u3) ++ ' ' :: 'x' :: ' ' :: N) =
        some (SKU, N)
      refine ih (c :: acc) (by simp) ?_
      rw [hsk]
      simp

theorem skuMatch_exact (SKU N : Str) (hS1 : SKU ≠ [])
    (hS2 : pyStrip SKU = SKU) (hS3 : '\n' ∉ SKU)
    (hS5 : ∀ l2, l2 < SKU.length → 0 < l2 →
      tailXMatch (SKU.drop l2) = none)
    (hN1 : N ≠ []) (hN2 : ∀ c ∈ N, isPyDigit c = true) :
    skuMatch (SKU ++ ' ' :: 'x' :: ' ' :: N) = some (SKU, N) := by
  unfold skuMatch
  exact skuMatchAux_full N SKU hN1 hN2 hS2 hS3 hS5 SKU [] hS1 (by simp)

end FileRenamer

namespace FileRenamer

open JobFolderParser

theorem head?_append_of_ne_nil (l1 l2 : Str) (h : l1 ≠ []) :
    (l1 ++ l2).head? = l1.head? := by
  rcases l1 with _ | ⟨a, t⟩
  · exact absurd rfl h
  · rfl

/-- C4 counterexample: the folder name `"1_A_B_box5 x 2_(PO)"` has the
claimed shape with SKU = `"box5"` and quantity `"2"`, but the lazy SKU regex
grabs the first `x`-digits occurrence inside the SKU, parsing sku=`"bo"` and
quantity=`"5"`. -/
theorem job_parse_sku_x_digit_counterexample :
    (parse "1_A_B_box5 x 2_(PO)".data).sku = "bo".data ∧
    (parse "1_A_B_box5 x 2_(PO)".data).quantity = "5".data ∧
    ("bo".data : Str) ≠ "box5".data ∧ ("5".data : Str) ≠ "2".data := by
  decide

end FileRenamer

namespace FileRenamer

open JobFolderParser

/-- C4 (amended): `parse` recovers job_number=digits, customer=A, company=B,
sku=SKU, quantity=N and po_number=PO exactly from
`"<digits>_<A>_<B>_<SKU> x <N>_(PO)"`, provided additionally: A and B contain
no opening bracket and are stable under the boundary strip of `' -_'`; SKU
contains no opening bracket, no newline, is stable under whitespace strip,
and contains no `x`/`X` after its first character that is followed, across
only whitespace, by a digit; and PO contains no closing bracket and is
whitespace-strip-stable. -/
theorem job_parse_full_format_roundtrip
    (D A B SKU N PO : Str)
    (hD1 : D ≠ []) (hD2 : ∀ c ∈ D, isPyDigit c = true)
    (hA1 : A ≠ []) (hA2 : '_' ∉ A) (hA3 : ∀ c ∈ A, isOpenBr c = false)
    (hA4 : clean_name A = A)
    (hB1 : B ≠ []) (hB2 : '_' ∉ B) (hB3 : ∀ c ∈ B, isOpenBr c = false)
    (hB4 : clean_name B = B)
    (hS1 : SKU ≠ []) (hS2 : pyStrip SKU = SKU) (hS3 : '\n' ∉ SKU)
    (hS4 : ∀ c ∈ SKU, isOpenBr c = false)
    (hS5 : ∀ l2, l2 < SKU.length → 0 < l2 →
      tailXMatch (SKU.drop l2) = none)
    (hN1 : N ≠ []) (hN2 : ∀ c ∈ N, isPyDigit c = true)
    (hP1 : PO ≠ []) (hP2 : ∀ c ∈ PO, isCloseBr c = false)
    (hP3 : pyStrip PO = PO) :
    parse (fullJobFolder D A B SKU N PO) =
      { job_number := D, customer := A, company := B, sku := SKU,
        quantity := N, po_number := PO,
        raw := fullJobFolder D A B SKU N PO } := by
  obtain ⟨d0, hd0h, hd0m⟩ : ∃ d0, D.head? = some d0 ∧ d0 ∈ D := by
    rcases D with _ | ⟨a, t⟩
    · exact absurd rfl hD1
    · exact ⟨a, rfl, by simp⟩
  obtain ⟨nl, hnlh, hnlm⟩ : ∃ a, N.getLast? = some a ∧ a ∈ N := by
    rcases hgl : N.getLast? with _ | a
    · rw [List.getLast?_eq_none_iff] at hgl
      exact absurd hgl hN1
    · exact ⟨a, rfl, getLast?_mem_str _ _ hgl⟩
  have hfoldD : fullJobFolder D A B SKU N PO =
      D ++ '_' :: (A ++ '_' :: (B ++ '_' ::
        (SKU ++ ' ' :: 'x' :: ' ' :: (N ++ '_' :: '(' :: (PO ++ [')']))))) := by
    unfold fullJobFolder
    simp
  have hfold : fullJobFolder D A B SKU N PO =
      ((D ++ '_' :: (A ++ '_' :: (B ++ '_' ::
        (SKU ++ ' ' :: 'x' :: ' ' :: N)))) ++ ['_']) ++
        '(' :: (PO ++ [')']) := by
    unfold fullJobFolder
    simp
  have hfold2 : fullJobFolder D A B SKU N PO =
      (((D ++ '_' :: (A ++ '_' :: (B ++ '_' ::
        (SKU ++ ' ' :: 'x' :: ' ' :: N)))) ++ ['_']) ++ '(' :: PO) ++ [')'] := by
    unfold fullJobFolder
    simp
  have hfne : fullJobFolder D A B SKU N PO ≠ [] := by
    rw [hfoldD]
    rcases D with _ | ⟨a, t⟩
    · exact absurd rfl hD1
    · simp
  have hstrip : pyStrip (fullJobFolder D A B SKU N PO) =
      fullJobFolder D A B SKU N PO := by
    apply stripP_eq_self
    · intro c hc
      rw [hfoldD, head?_append_of_ne_nil D _ hD1, hd0h] at hc
      injection hc with hc
      subst hc
      exact digit_not_ws d0 (hD2 d0 hd0m)
    · intro c hc
      rw [hfold2, List.getLast?_concat] at hc
      injection hc with hc
      subst hc
      decide
  have hpreopen : ∀ c ∈ ((D ++ '_' :: (A ++ '_' :: (B ++ '_' ::
      (SKU ++ ' ' :: 'x' :: ' ' :: N)))) ++ ['_']), isOpenBr c = false := by
    intro c hc
    rcases List.mem_append.mp hc with hc | hc
    swap
    · simp only [List.mem_singleton] at hc
      subst hc
      decide
    rcases List.mem_append.mp hc with hc | hc
    · exact digit_not_open c (hD2 c hc)
    rcases List.mem_cons.mp hc with hc | hc
    · subst hc; decide
    rcases List.mem_append.mp hc with hc | hc
    · exact hA3 c hc
    rcases List.mem_cons.mp hc with hc | hc
    · subst hc; decide
    rcases List.mem_append.mp hc with hc | hc
    · exact hB3 c hc
    rcases List.mem_cons.mp hc with hc | hc
    · subst hc; decide
    rcases List.mem_append.mp hc with hc | hc
    · exact hS4 c hc
    rcases List.mem_cons.mp hc with hc | hc
    · subst hc; decide
    rcases List.mem_cons.mp hc with hc | hc
    · subst hc; decide
    rcases List.mem_cons.mp hc with hc | hc
    · subst hc; decide
    exact digit_not_open c (hN2 c hc)
  have hpo : poSearch (fullJobFolder D A B SKU N PO) =
      some ((D ++ '_' :: (A ++ '_' :: (B ++ '_' ::
        (SKU ++ ' ' :: 'x' :: ' ' :: N)))) ++ ['_'], PO) := by
    rw [hfold]
    unfold poSearch
    rw [poSearchAux_concat PO hP1 hP2 _ [] hpreopen]
    simp
  have hcorelast : (D ++ '_' :: (A ++ '_' :: (B ++ '_' ::
      (SKU ++ ' ' :: 'x' :: ' ' :: N)))).getLast? = some nl := by
    rw [show D ++ '_' :: (A ++ '_' :: (B ++ '_' ::
        (SKU ++ ' ' :: 'x' :: ' ' :: N))) =
      (D ++ '_' :: (A ++ '_' :: (B ++ '_' ::
        (SKU ++ [' ', 'x', ' '])))) ++ N from by simp]
    rw [List.getLast?_append_of_ne_nil _ hN1]
    exact hnlh
  have hstripsep : stripP isStripSep ((D ++ '_' :: (A ++ '_' :: (B ++ '_' ::
      (SKU ++ ' ' :: 'x' :: ' ' :: N)))) ++ ['_']) =
      D ++ '_' :: (A ++ '_' :: (B ++ '_' ::
        (SKU ++ ' ' :: 'x' :: ' ' :: N))) := by
    have hdw : ((D ++ '_' :: (A ++ '_' :: (B ++ '_' ::
        (SKU ++ ' ' :: 'x' :: ' ' :: N)))) ++ ['_']).dropWhile isStripSep =
        (D ++ '_' :: (A ++ '_' :: (B ++ '_' ::
          (SKU ++ ' ' :: 'x' :: ' ' :: N)))) ++ ['_'] := by
      apply dropWhile_eq_self_of_head
      intro c hc
      rw [show (D ++ '_' :: (A ++ '_' :: (B ++ '_' ::
          (SKU ++ ' ' :: 'x' :: ' ' :: N)))) ++ ['_'] =
        D ++ ('_' :: (A ++ '_' :: (B ++ '_' ::
          (SKU ++ ' ' :: 'x' :: ' ' :: N))) ++ ['_']) from by simp] at hc
      rw [head?_append_of_ne_nil D _ hD1, hd0h] at hc
      injection hc with hc
      subst hc
      exact digit_not_stripSep d0 (hD2 d0 hd0m)
    have hdw2 : (D ++ '_' :: (A ++ '_' :: (B ++ '_' ::
        (SKU ++ ' ' :: 'x' :: ' ' :: N)))).reverse.dropWhile isStripSep =
        (D ++ '_' :: (A ++ '_' :: (B ++ '_' ::
          (SKU ++ ' ' :: 'x' :: ' ' :: N)))).reverse := by
      apply dropWhile_eq_self_of_head
      intro c hc
      rw [List.head?_reverse, hcorelast] at hc
      injection hc with hc
      subst hc
      exact digit_not_stripSep nl (hN2 nl hnlm)
    unfold stripP
    rw [hdw]
    unfold rdropWhileP
    rw [List.reverse_append]
    rw [show ((['_'] : Str).reverse ++ (D ++ '_' :: (A ++ '_' :: (B ++ '_' ::
        (SKU ++ ' ' :: 'x' :: ' ' :: N)))).reverse) =
      '_' :: (D ++ '_' :: (A ++ '_' :: (B ++ '_' ::
        (SKU ++ ' ' :: 'x' :: ' ' :: N)))).reverse from by simp]
    rw [List.dropWhile_cons, if_pos (by decide : isStripSep '_' = true)]
    rw [hdw2, List.reverse_reverse]
  have hDus : ∀ c ∈ D, c ≠ '_' := by
    intro c hc he
    subst he
    exact absurd (hD2 '_' hc) (by decide)
  have hAus : ∀ c ∈ A, c ≠ '_' := fun c hc he => hA2 (he ▸ hc)
  have hBus : ∀ c ∈ B, c ≠ '_' := fun c hc he => hB2 (he ▸ hc)
  have hsplit : splitChar '_' (D ++ '_' :: (A ++ '_' :: (B ++ '_' ::
      (SKU ++ ' ' :: 'x' :: ' ' :: N)))) =
      D :: A :: B :: splitChar '_' (SKU ++ ' ' :: 'x' :: ' ' :: N) := by
    rw [splitChar_append '_' D _ hDus, splitChar_append '_' A _ hAus,
        splitChar_append '_' B _ hBus]
  have hsq : skuMatch (SKU ++ ' ' :: 'x' :: ' ' :: N) = some (SKU, N) :=
    skuMatch_exact SKU N hS1 hS2 hS3 hS5 hN1 hN2
  have hjoin : joinSep ['_'] (splitChar '_' (SKU ++ ' ' :: 'x' :: ' ' :: N)) =
      SKU ++ ' ' :: 'x' :: ' ' :: N := joinSep_splitChar _ _
  have htakeD : D.takeWhile isPyDigit = D := takeWhile_all_eq _ _ hD2
  have hlen4 : (D :: A :: B ::
      splitChar '_' (SKU ++ ' ' :: 'x' :: ' ' :: N)).length ≥ 4 := by
    have := splitChar_ne_nil '_' (SKU ++ ' ' :: 'x' :: ' ' :: N)
    have hpos := List.length_pos.mpr this
    simp only [List.length_cons]
    omega
  unfold parse
  rw [if_neg hfne]
  dsimp only
  rw [hstrip, hpo]
  dsimp only
  rw [hstripsep, hP3, hsplit]
  rw [if_pos hlen4]
  simp only [List.head?_cons, List.getElem?_cons_succ, List.getElem?_cons_zero,
    List.drop_succ_cons, List.drop_zero, htakeD, hA4, hB4, hjoin, hsq, hS2]

theorem job_parse_full_format_roundtrip_witness :
    parse (fullJobFolder "12345".data "JohnDoe".data "AcmeCorp".data
        "MUG-11OZ".data "100".data "PO-98765".data) =
      { job_number := "12345".data, customer := "JohnDoe".data,
        company := "AcmeCorp".data, sku := "MUG-11OZ".data,
        quantity := "100".data, po_number := "PO-98765".data,
        raw := fullJobFolder "12345".data "JohnDoe".data "AcmeCorp".data
          "MUG-11OZ".data "100".data "PO-98765".data } :=
  job_parse_full_format_roundtrip "12345".data "JohnDoe".data "AcmeCorp".data
    "MUG-11OZ".data "100".data "PO-98765".data
    (by decide) (by decide) (by decide) (by decide) (by decide) (by decide)
    (by decide) (by decide) (by decide) (by decide) (by decide) (by decide)
    (by decide) (by decide) (by decide) (by decide) (by decide) (by decide)
    (by decide) (by decide)

end FileRenamer
